import Mathlib

/-!
Verification development for the `remote_http_agent_rs` HTTP forwarding
gateway (sources: `src/auth.rs`, `src/headers.rs`, `src/proxy.rs`,
`src/main.rs`).

Strings are modelled as lists of natural numbers (`Str`), one entry per
byte / ASCII character, faithful to the byte-oriented Rust code for the
ASCII inputs the protocol deals with.  HTTP header multimaps
(`axum::http::HeaderMap`, `reqwest::header::HeaderMap`) are modelled as
ordered lists of name/value pairs; the `http` crate normalises header
names to lowercase on construction, which the model mirrors in
`mkHeaderName` / `insertH`.  Behaviour of the external `url`,
`urlencoding` and `http` crates is modelled only as far as the code under
`src/` exercises it (hierarchical `scheme://host[:port]/path?query#fragment`
URLs; RFC 3986 unreserved-set percent-encoding; token-character header
names and visible-ASCII header values).
-/

set_option autoImplicit false

/-- Byte-string model of Rust `String`/`&str` values. -/
abbrev Str := List Nat

/-- Header multimap model: ordered list of (name, value) pairs. -/
abbrev Headers := List (Str × Str)

/-- Conversion from Lean string literals to the byte-string model. -/
def bytes (s : String) : Str := s.data.map Char.toNat

/-- ASCII lowercasing of a single byte, as in Rust `eq_ignore_ascii_case` /
`to_lowercase` restricted to ASCII. -/
def asciiLowerByte (b : Nat) : Nat := if 65 ≤ b ∧ b ≤ 90 then b + 32 else b

/-- ASCII lowercasing of a byte string. -/
def lowerAscii (s : Str) : Str := s.map asciiLowerByte

/-- Rust `str::eq_ignore_ascii_case`. -/
def eqIgnoreAsciiCase (a b : Str) : Bool := lowerAscii a == lowerAscii b

/-- Whitespace bytes recognised by Rust `str::trim` (ASCII part:
tab, LF, VT, FF, CR, space). -/
def isWsByte (b : Nat) : Bool := b == 32 || (9 ≤ b && b ≤ 13)

/-- Rust `str::trim`: strip leading and trailing whitespace. -/
def trimStr (s : Str) : Str :=
  ((s.dropWhile isWsByte).reverse.dropWhile isWsByte).reverse

/-- Decimal rendering of a number, byte-string form of Rust
`u16::to_string`. -/
def natDecStr (n : Nat) : Str := (Nat.repr n).data.map Char.toNat

/-- Split a byte string at the first occurrence of byte `d`:
returns the part before `d` and, when `d` occurs, the part after it. -/
def splitFirst (d : Nat) : Str → Str × Option Str
  | [] => ([], none)
  | b :: rest =>
    if b = d then ([], some rest)
    else
      let r := splitFirst d rest
      (b :: r.1, r.2)

/-- Valid bytes of an `http::HeaderName`
(token characters: alphanumerics and ``!#$%&'*+-.^_`|~``). -/
def isTokenByte (b : Nat) : Bool :=
  (48 ≤ b && b ≤ 57) || (65 ≤ b && b ≤ 90) || (97 ≤ b && b ≤ 122) ||
  b == 33 || b == 35 || b == 36 || b == 37 || b == 38 || b == 39 ||
  b == 42 || b == 43 || b == 45 || b == 46 || b == 94 || b == 95 ||
  b == 96 || b == 124 || b == 126

/-- Success condition of `HeaderName::from_bytes` / `HeaderName::try_from`. -/
def isValidHeaderName (n : Str) : Bool := n != [] && n.all isTokenByte

/-- `HeaderName` construction: validity check plus the crate's
lowercase normalisation. -/
def mkHeaderName (n : Str) : Option Str :=
  if isValidHeaderName n then some (lowerAscii n) else none

/-- Valid bytes of an `http::HeaderValue` (from_bytes/from_str):
tab, or any byte that is at least 32 and not DEL. -/
def isValidValueByte (b : Nat) : Bool := b == 9 || (32 ≤ b && b != 127)

/-- Success condition of `HeaderValue::from_bytes` / `from_str`. -/
def isValidHeaderValue (v : Str) : Bool := v.all isValidValueByte

/-- Bytes accepted by `HeaderValue::to_str`: visible ASCII and space. -/
def isVisibleByte (b : Nat) : Bool := 32 ≤ b && b ≤ 126

/-- `HeaderValue::to_str().ok()`: the value unchanged when every byte is
visible ASCII, `None` otherwise. -/
def headerToStr (v : Str) : Option Str :=
  if v.all isVisibleByte then some v else none

/-- All values stored under a name, compared case-insensitively
(header-name comparison in the `http` crate is case-insensitive). -/
def getAll (m : Str) (hs : Headers) : List Str :=
  hs.filterMap (fun p => if lowerAscii p.1 == lowerAscii m then some p.2 else none)

/-- `HeaderMap::get`: first entry stored under a name (case-insensitive). -/
def findCI (m : Str) (hs : Headers) : Option (Str × Str) :=
  hs.find? (fun p => lowerAscii p.1 == lowerAscii m)

/-- `HeaderMap::insert`: drop the previous values of the name and add the
new value; the stored key is the lowercase-normalised `HeaderName`. -/
def insertH (n v : Str) (hs : Headers) : Headers :=
  hs.filter (fun p => lowerAscii p.1 != lowerAscii n) ++ [(lowerAscii n, v)]

/-- `HeaderMap::remove`: drop all values of the name. -/
def removeName (n : Str) (hs : Headers) : Headers :=
  hs.filter (fun p => lowerAscii p.1 != lowerAscii n)

/-- `for (key, value) in extra.iter() { resp.insert(key, value) }`
(the CORS/cache merge loops of `src/main.rs` lines 59-61, 69-71, 77-79). -/
def mergeInto (extra : Headers) (resp : Headers) : Headers :=
  extra.foldl (fun acc p => insertH p.1 p.2 acc) resp

/-! ## `src/headers.rs` -/

/-- `default_forward_headers` (`src/headers.rs` lines 7-16): the fixed
whitelist of forwardable request header names. -/
def default_forward_headers : List Str :=
  [bytes ("content-type"), bytes ("content-length"), bytes ("user-agent"),
   bytes ("accept"), bytes ("accept-encoding"), bytes ("keep-alive")]

/-- `is_cors_header` (`src/headers.rs` lines 19-21):
`header.to_lowercase().starts_with("access-control-")`. -/
def is_cors_header (n : Str) : Bool :=
  (bytes ("access-control-")).isPrefixOf (lowerAscii n)

/-- The `tun-` escape-prefix test of `copy_request_headers`
(`src/headers.rs` lines 33-36, 48-49): name strictly longer than `tun-`
whose first four bytes match `tun-` ASCII-case-insensitively. -/
def isTunName (n : Str) : Bool :=
  decide (4 < n.length) && lowerAscii (n.take 4) == bytes ("tun-")

/-- First pass of `copy_request_headers` (`src/headers.rs` lines 31-40):
the set of lowercased de-prefixed names of all `tun-` headers. -/
def collectTunNames (src : Headers) : List Str :=
  src.filterMap (fun p => if isTunName p.1 then some (lowerAscii (p.1.drop 4)) else none)

/-- Per-header body of the second pass of `copy_request_headers`
(`src/headers.rs` lines 43-72): skip names that are neither `tun-`-prefixed
nor whitelisted; strip the prefix from `tun-` names; drop whitelisted names
overridden by a `tun-` variant; skip pairs that fail `HeaderName`/`HeaderValue`
construction. -/
def requestEntry (tunNames : List Str) (p : Str × Str) : Option (Str × Str) :=
  let lowered := lowerAscii p.1
  let isTun := isTunName p.1
  if !isTun && !(default_forward_headers.contains lowered) then none
  else if isTun then
    match mkHeaderName (p.1.drop 4) with
    | some hn => if isValidHeaderValue p.2 then some (hn, p.2) else none
    | none => none
  else if tunNames.contains lowered then none
  else
    match mkHeaderName p.1 with
    | some hn => if isValidHeaderValue p.2 then some (hn, p.2) else none
    | none => none

/-- `copy_request_headers` (`src/headers.rs` lines 24-75). -/
def copy_request_headers (src : Headers) : Headers :=
  src.filterMap (requestEntry (collectTunNames src))

/-- Per-header body of the loop of `copy_response_headers`
(`src/headers.rs` lines 93-114): drop CORS headers, rename `set-cookie`
to `tun-set-cookie`, skip pairs failing header construction. -/
def responseEntry (p : Str × Str) : Option (Str × Str) :=
  if is_cors_header p.1 then none
  else
    let key := if eqIgnoreAsciiCase p.1 (bytes ("set-cookie")) then bytes ("tun-set-cookie") else p.1
    match mkHeaderName key with
    | some hn => if isValidHeaderValue p.2 then some (hn, p.2) else none
    | none => none

/-- `copy_response_headers` (`src/headers.rs` lines 78-115), applied as in
`proxy_handler` to a freshly created target map: for a 3xx status first
insert `tun-status` with the decimal original status, then append the
translated origin headers. -/
def copy_response_headers (src : Headers) (status : Nat) : Headers :=
  (if 300 ≤ status ∧ status < 400 then [(bytes ("tun-status"), natDecStr status)] else [])
  ++ src.filterMap responseEntry

/-! ## `src/auth.rs` -/

/-- `valid_bearer` (`src/auth.rs` lines 32-48): case-insensitive
`"Bearer "` prefix check on the whole header, then byte-exact comparison
of the trimmed remainder after the 7-byte prefix. -/
def valid_bearer (authorization_header auth_key : Str) : Bool :=
  if !(List.isPrefixOf (lowerAscii (bytes ("Bearer "))) (lowerAscii authorization_header)) then
    false
  else
    trimStr (authorization_header.drop 7) == auth_key

/-- Extraction of the authorization header value in `main_handler`
(`src/main.rs` lines 50-53):
`headers.get("authorization").and_then(|v| v.to_str().ok()).unwrap_or("")`. -/
def authHeaderOf (rh : Headers) : Str :=
  (((findCI (bytes ("authorization")) rh).bind (fun p => headerToStr p.2))).getD []

/-! ## Model of the `url` crate (`url::Url`), as exercised by
`parse_origin_url` and `modify_location` in `src/proxy.rs`.

The model covers hierarchical URLs with an authority
(`scheme://host[:port][/path][?query][#fragment]`) — the shape the
gateway forwards to — including the crate's lowercase normalisation of
scheme and host and its rejection of empty hosts, syntactically invalid
hosts, and non-numeric or out-of-range ports.  Userinfo, IPv6 bracket
hosts, percent-decoding of hosts, default-port elision,
non-hierarchical (cannot-be-a-base) URLs, and the crate's re-encoding of
non-visible-ASCII bytes in path/query/fragment (the model instead accepts
only visible-ASCII bytes there) are outside this base model, and the
crate also trims whitespace and strips tabs and newlines before parsing,
which the model does not (its inputs are the already-clean strings).
A second parser below, `parseUrlE`, additionally captures the crate's
slash coercion for the non-`file` special schemes and its port
normalisation, exhibiting accepted inputs that lie outside the base
model. -/

def isAlphaByte (b : Nat) : Bool := (65 ≤ b && b ≤ 90) || (97 ≤ b && b ≤ 122)

def isDigitByte (b : Nat) : Bool := 48 ≤ b && b ≤ 57

/-- Bytes allowed after the first byte of a URL scheme. -/
def isSchemeByte (b : Nat) : Bool :=
  isAlphaByte b || isDigitByte b || b == 43 || b == 45 || b == 46

/-- Host bytes accepted by the model (alphanumerics, `-`, `.`, `_`, `~`, `%`). -/
def isHostByte (b : Nat) : Bool :=
  isAlphaByte b || isDigitByte b || b == 45 || b == 46 || b == 95 || b == 126 || b == 37

/-- Bytes terminating the authority component: `/`, `?`, `#`. -/
def isAuthDelim (b : Nat) : Bool := b == 47 || b == 63 || b == 35

/-- Numeric value of a decimal digit string. -/
def strToNat (s : Str) : Nat := s.foldl (fun a b => a * 10 + (b - 48)) 0

/-- Port component parsing: empty means no port; otherwise the digits must
form a number of at most 65535. -/
def parsePortStr (s : Str) : Option (Option Str) :=
  if s = [] then some none
  else if s.all isDigitByte && strToNat s ≤ 65535 then some (some s) else none

/-- Scheme extraction: everything before the first `:`; it must be
non-empty, start with a letter and consist of scheme bytes. -/
def parseSchemeSplit (t : Str) : Option (Str × Str) :=
  match splitFirst 58 t with
  | (_, none) => none
  | (sch, some rest) =>
    match sch with
    | [] => none
    | c :: _ => if isAlphaByte c && sch.all isSchemeByte then some (sch, rest) else none

/-- Authority parsing: `host[:port]`, host non-empty and syntactically valid. -/
def parseAuthority (a : Str) : Option (Str × Option Str) :=
  match splitFirst 58 a with
  | (h, portPart) =>
    if h = [] || !(h.all isHostByte) then none
    else
      match portPart with
      | none => some (h, none)
      | some ps =>
        match parsePortStr ps with
        | none => none
        | some port => some (h, port)

/-- Parsed-URL record mirroring the components of `url::Url` the code uses. -/
structure UrlModel where
  scheme : Str
  host : Str
  port : Option Str
  path : Str
  query : Option Str
  fragment : Option Str
deriving DecidableEq

/-- `url::Url::parse` on authority-based URLs (see the model note above). -/
def parseUrl (t : Str) : Option UrlModel :=
  match parseSchemeSplit t with
  | none => none
  | some (sch, rest) =>
    match rest with
    | 47 :: 47 :: rest2 =>
      let auth := rest2.takeWhile (fun b => !(isAuthDelim b))
      let after := rest2.drop auth.length
      match parseAuthority auth with
      | none => none
      | some (h, port) =>
        if after.all isVisibleByte then
          let bf := splitFirst 35 after
          let pq := splitFirst 63 bf.1
          some ⟨lowerAscii sch, lowerAscii h, port, pq.1, pq.2, bf.2⟩
        else none
    | _ => none

/-- Serialisation of a port component. -/
def renderPort : Option Str → Str
  | none => []
  | some p => 58 :: p

/-- `url::Url::to_string` for the modelled URL shape. -/
def renderUrl (u : UrlModel) : Str :=
  u.scheme ++ bytes ("://") ++ u.host ++ renderPort u.port ++ u.path
  ++ (match u.query with | none => [] | some q => 63 :: q)
  ++ (match u.fragment with | none => [] | some f => 35 :: f)

/-- Rust `str::trim_end_matches('/')`: strip every trailing slash. -/
def trimEndSlashes (s : Str) : Str :=
  (s.reverse.dropWhile (fun b => b == 47)).reverse

/-! ## `src/proxy.rs` -/

/-- `parse_origin_url` (`src/proxy.rs` lines 27-32): parse the target URL,
set its path to `/`, clear the query, render, strip trailing slashes. -/
def parse_origin_url (url_string : Str) : Option Str :=
  (parseUrl url_string).map
    (fun u => trimEndSlashes (renderUrl { u with path := bytes ("/"), query := none }))

/-- The authority form `scheme://host[:port]` of a parsed URL; by
`parse_origin_url_eq` below this is the origin the code derives for
fragment-free target URLs. -/
def originOf (u : UrlModel) : Str :=
  u.scheme ++ bytes ("://") ++ u.host ++ renderPort u.port

/-- RFC 3986 unreserved bytes, the set `urlencoding::encode` leaves as-is. -/
def isUnreservedByte (b : Nat) : Bool :=
  isAlphaByte b || isDigitByte b || b == 45 || b == 46 || b == 95 || b == 126

/-- Uppercase hexadecimal digit byte of a value below 16. -/
def hexDigitByte (n : Nat) : Nat := if n < 10 then 48 + n else 55 + n

/-- UTF-8 byte sequence of a Unicode scalar value (for ASCII input the
singleton of the byte itself). -/
def utf8Bytes (n : Nat) : List Nat :=
  if n < 128 then [n]
  else if n < 2048 then [192 + n / 64, 128 + n % 64]
  else if n < 65536 then [224 + n / 4096, 128 + (n / 64) % 64, 128 + n % 64]
  else [240 + n / 262144, 128 + (n / 4096) % 64, 128 + (n / 64) % 64, 128 + n % 64]

/-- Percent-encoding of a single scalar, as `urlencoding::encode` does. -/
def encodeByte (b : Nat) : Str :=
  if isUnreservedByte b then [b]
  else (utf8Bytes b).map (fun x => [37, hexDigitByte (x / 16), hexDigitByte (x % 16)]) |>.flatten

/-- `urlencoding::encode`. -/
def urlencode (s : Str) : Str := (s.map encodeByte).flatten

/-- `build_proxy_url` (`src/proxy.rs` lines 35-37):
`format!("{}?url={}", "/proxy", urlencoding::encode(uri))`. -/
def build_proxy_url (uri : Str) : Str := bytes ("/proxy?url=") ++ urlencode uri

/-- `is_full_url` (`src/proxy.rs` lines 86-88). -/
def is_full_url (uri : Str) : Bool :=
  (bytes ("http://")).isPrefixOf uri || (bytes ("https://")).isPrefixOf uri

/-- `is_absolute_path` (`src/proxy.rs` lines 90-92). -/
def is_absolute_path (uri : Str) : Bool :=
  match uri with
  | 47 :: _ => true
  | _ => false

/-- The location-resolution core of `modify_location`
(`src/proxy.rs` lines 52-72): protocol-relative locations get the
origin's scheme, non-full URLs are prefixed with the origin (with a `/`
separator and leading slashes trimmed for relative paths), full URLs pass
unchanged. -/
def resolveLocation (origin loc : Str) : Str :=
  if (bytes ("//")).isPrefixOf loc then
    match parseUrl origin with
    | some u => if u.scheme ≠ [] then u.scheme ++ bytes (":") ++ loc else loc
    | none => loc
  else if !(is_full_url loc) then
    if is_absolute_path loc then origin ++ loc
    else origin ++ bytes ("/") ++ loc.dropWhile (fun b => b == 47)
  else loc

/-- `modify_location` (`src/proxy.rs` lines 40-84): read and trim the
first `location` value; when non-empty, resolve it against the origin,
remove `location`, and insert `tun-Location` and `tun-Location-Proxy`
(each skipped when `HeaderValue::from_str` would fail). -/
def modify_location (response_headers : Headers) (origin : Str) : Headers :=
  let raw := ((findCI (bytes ("location")) response_headers).bind
    (fun p => headerToStr p.2)).map trimStr
  match raw with
  | none => response_headers
  | some loc =>
    if loc = [] then response_headers
    else
      let location := resolveLocation origin loc
      let location_proxy := build_proxy_url location
      let hs1 := removeName (bytes ("location")) response_headers
      let hs2 := if isValidHeaderValue location then
        insertH (bytes ("tun-Location")) location hs1 else hs1
      if isValidHeaderValue location_proxy then
        insertH (bytes ("tun-Location-Proxy")) location_proxy hs2 else hs2

/-- The seven standard methods `proxy_handler` maps to themselves
(`src/proxy.rs` lines 115-122). -/
def stdMethods : List Str :=
  [bytes ("GET"), bytes ("POST"), bytes ("PUT"), bytes ("DELETE"),
   bytes ("HEAD"), bytes ("OPTIONS"), bytes ("PATCH")]

/-- Method conversion of `proxy_handler` (`src/proxy.rs` lines 114-124):
the catch-all arm maps every non-standard method to `GET`. -/
def convertMethod (m : Str) : Str :=
  if stdMethods.contains m then m else bytes ("GET")

/-- The outbound request `proxy_handler` builds (`src/proxy.rs`
lines 126-137); the opaque body bytes are not modelled. -/
structure ForwardRequest where
  method : Str
  url : Str
  headers : Headers
deriving DecidableEq

/-- The request `proxy_handler` sends upstream, when it sends one:
`None` exactly when origin parsing fails before the send
(`src/proxy.rs` lines 106-141). -/
def forwarded_request (method targetUrl : Str) (hs : Headers) : Option ForwardRequest :=
  match parse_origin_url targetUrl with
  | none => none
  | some _ => some ⟨convertMethod method, targetUrl, copy_request_headers hs⟩

/-- `AppError` (`src/proxy.rs` lines 242-247). -/
inductive AppError where
  | badRequest
  | internal
  | unauthorized
deriving DecidableEq

/-- Status mapping of `impl IntoResponse for AppError`
(`src/proxy.rs` lines 249-261). -/
def appErrorStatus : AppError → Nat
  | .badRequest => 400
  | .internal => 500
  | .unauthorized => 401

/-- Outcome of the forwarded call (`request_builder.send().await`):
either a transport failure or an origin response with status and headers. -/
inductive Upstream where
  | fail
  | ok (status : Nat) (headers : Headers)

/-- Client-facing response: status plus header multimap
(the streamed body is opaque to the model). -/
structure HttpResponse where
  status : Nat
  headers : Headers
deriving DecidableEq

/-- Status translation of `proxy_handler` (`src/proxy.rs` lines 149-157):
3xx becomes 200; otherwise `StatusCode::from_u16(s).unwrap_or(OK)`,
where `from_u16` accepts 100..=999. -/
def finalStatus (s : Nat) : Nat :=
  if 300 ≤ s ∧ s < 400 then 200
  else if 100 ≤ s ∧ s ≤ 999 then s else 200

/-- `proxy_handler` (`src/proxy.rs` lines 95-176), with the outcome of the
upstream send supplied as a parameter. -/
def proxy_handler (_method : Str) (targetUrl : Str) (_hs : Headers) (up : Upstream) :
    Except AppError HttpResponse :=
  match parse_origin_url targetUrl with
  | none => .error .badRequest
  | some origin_url =>
    match up with
    | .fail => .error .internal
    | .ok s uhs =>
      let response_headers := copy_response_headers uhs s
      let response_headers := modify_location response_headers origin_url
      .ok ⟨finalStatus s, response_headers⟩

/-- The `Access-Control-Allow-Origin` value `add_cors_headers` computes
(`src/proxy.rs` lines 181-184). -/
def corsOriginValue (request_headers : Headers) : Str :=
  (((findCI (bytes ("origin")) request_headers).bind (fun p => headerToStr p.2))).getD
    (bytes ("*"))

/-- The `Access-Control-Allow-Headers` value `add_cors_headers` computes
(`src/proxy.rs` lines 196-200). -/
def corsAllowHeadersValue (request_headers : Headers) : Str :=
  match (findCI (bytes ("access-control-request-headers")) request_headers).bind
      (fun p => headerToStr p.2) with
  | some s => if s = [] then bytes ("*") else s
  | none => bytes ("*")

/-- `add_cors_headers` (`src/proxy.rs` lines 179-222). -/
def add_cors_headers (response_headers request_headers : Headers) : Headers :=
  let origin := corsOriginValue request_headers
  let t1 := if isValidHeaderValue origin then
    insertH (bytes ("Access-Control-Allow-Origin")) origin response_headers
    else response_headers
  let t2 := insertH (bytes ("Access-Control-Allow-Methods")) (bytes ("*")) t1
  let request_hdrs := corsAllowHeadersValue request_headers
  let t3 := if isValidHeaderValue request_hdrs then
    insertH (bytes ("Access-Control-Allow-Headers")) request_hdrs t2 else t2
  let t4 := insertH (bytes ("Access-Control-Max-Age")) (bytes ("86400")) t3
  let t5 := insertH (bytes ("Access-Control-Allow-Credentials")) (bytes ("true")) t4
  insertH (bytes ("Access-Control-Expose-Headers"))
    (bytes ("tun-Location, tun-Location-Proxy, tun-set-cookie, tun-status")) t5

/-- `add_cache_control_headers` (`src/proxy.rs` lines 225-232). -/
def add_cache_control_headers (response_headers : Headers) : Headers :=
  insertH (bytes ("Expires")) (bytes ("0"))
    (insertH (bytes ("Pragma")) (bytes ("no-cache"))
      (insertH (bytes ("Cache-Control"))
        (bytes ("no-store, no-cache, must-revalidate, post-check=0, pre-check=0"))
        response_headers))

/-! ## `src/main.rs` -/

/-- `main_handler` (`src/main.rs` lines 27-83): stamp CORS headers, answer
OPTIONS preflight immediately, add cache-control headers, check the bearer
token (401 on failure), run `proxy_handler`, and merge the CORS/cache
headers onto whichever response resulted. -/
def main_handler (method : Str) (headers : Headers) (targetUrl token : Str)
    (up : Upstream) : HttpResponse :=
  let response_headers := add_cors_headers [] headers
  if method = bytes ("OPTIONS") then ⟨200, response_headers⟩
  else
    let response_headers := add_cache_control_headers response_headers
    if !(valid_bearer (authHeaderOf headers) token) then
      ⟨401, mergeInto response_headers []⟩
    else
      match proxy_handler method targetUrl headers up with
      | .ok r => ⟨r.status, mergeInto response_headers r.headers⟩
      | .error e => ⟨appErrorStatus e, mergeInto response_headers []⟩

/-! ## Claim-side characterisations

The following definitions restate, in the words of the specification
claims, what the outbound maps must contain; the claim theorems relate
them to the source-translated functions above. -/

/-- Claim C2: a `tun-` variant of the (lowercase) name `m` is present
somewhere in the inbound map. -/
def tunPresent (m : Str) (src : Headers) : Bool :=
  src.any (fun p => isTunName p.1 && (lowerAscii (p.1.drop 4) == m))

/-- Claim C2 (i): the contribution of one inbound header to outbound name
`m` through the escape-prefix rule — a `tun-` name whose de-prefixed
lowercase form is `m`, with constructible header data, passes its value
unchanged. -/
def reqTunContrib (m : Str) (p : Str × Str) : Option Str :=
  if isTunName p.1 && (lowerAscii (p.1.drop 4) == m)
      && isValidHeaderName (p.1.drop 4) && isValidHeaderValue p.2 then
    some p.2
  else none

/-- Claim C2 (ii): the contribution of one inbound header to outbound name
`m` through the whitelist rule — a bare name of lowercase form `m` with
constructible header data passes its value unchanged. -/
def reqBareContrib (m : Str) (p : Str × Str) : Option Str :=
  if !(isTunName p.1) && (lowerAscii p.1 == m)
      && isValidHeaderName p.1 && isValidHeaderValue p.2 then
    some p.2
  else none

/-- Claim C4: the contribution of one origin response header to
client-facing name `m`: `access-control-*` names are dropped,
`set-cookie` reappears under `tun-set-cookie`, every other header passes
through under its own (lowercased) name, malformed pairs are skipped. -/
def respContrib (m : Str) (p : Str × Str) : Option Str :=
  if is_cors_header p.1 then none
  else if eqIgnoreAsciiCase p.1 (bytes ("set-cookie")) then
    if (bytes ("tun-set-cookie")) == m && isValidHeaderValue p.2 then some p.2 else none
  else if (lowerAscii p.1 == m) && isValidHeaderName p.1 && isValidHeaderValue p.2 then
    some p.2
  else none

/-- Claim C3's resolution rule, in the claim's own case order: a full
`http(s)` URL is unchanged; a protocol-relative location gets
`scheme(O) + ":"`; an absolute path gets the origin prepended; anything
else gets origin, `/`, and the location with leading slashes trimmed. -/
def claimResolve (origin loc : Str) : Str :=
  if is_full_url loc then loc
  else if (bytes ("//")).isPrefixOf loc then
    (origin.takeWhile (fun b => b != 58)) ++ bytes (":") ++ loc
  else if is_absolute_path loc then origin ++ loc
  else origin ++ bytes ("/") ++ loc.dropWhile (fun b => b == 47)

/-- Claim C9: the target string carries a syntactically valid scheme. -/
def hasScheme (t : Str) : Bool := (parseSchemeSplit t).isSome

/-- Claim C9: the target string carries a (non-empty) host component. -/
def hasHost (t : Str) : Bool :=
  match parseSchemeSplit t with
  | some (_, 47 :: 47 :: rest2) =>
    (splitFirst 58 (rest2.takeWhile (fun b => !(isAuthDelim b)))).1 != []
  | _ => false

/-! ## Basic lemmas about the byte-string and header-map model -/

theorem asciiLowerByte_idem (b : Nat) : asciiLowerByte (asciiLowerByte b) = asciiLowerByte b := by
  unfold asciiLowerByte
  by_cases h : 65 ≤ b ∧ b ≤ 90
  · rw [if_pos h, if_neg (by omega : ¬(65 ≤ b + 32 ∧ b + 32 ≤ 90))]
  · rw [if_neg h, if_neg h]

theorem lowerAscii_idem (s : Str) : lowerAscii (lowerAscii s) = lowerAscii s := by
  unfold lowerAscii
  rw [List.map_map]
  exact List.map_congr_left (fun b _ => asciiLowerByte_idem b)

theorem getAll_nil (m : Str) : getAll m [] = [] := rfl

theorem getAll_cons (m : Str) (p : Str × Str) (hs : Headers) :
    getAll m (p :: hs) =
      if lowerAscii p.1 == lowerAscii m then p.2 :: getAll m hs else getAll m hs := by
  by_cases h : lowerAscii p.1 = lowerAscii m <;>
    simp [getAll, List.filterMap_cons, h]

theorem getAll_append (m : Str) (xs ys : Headers) :
    getAll m (xs ++ ys) = getAll m xs ++ getAll m ys := by
  unfold getAll
  exact List.filterMap_append xs ys _

theorem getAll_filter_eq (m n : Str) (hs : Headers)
    (h : lowerAscii n = lowerAscii m) :
    getAll m (hs.filter (fun p => lowerAscii p.1 != lowerAscii n)) = [] := by
  induction hs with
  | nil => rfl
  | cons p rest ih =>
    rw [List.filter_cons]
    split <;> rename_i hp
    · rw [getAll_cons]
      simp only [bne_iff_ne, ne_eq] at hp
      rw [if_neg (by simpa [h] using hp)]
      exact ih
    · exact ih

theorem getAll_filter_ne (m n : Str) (hs : Headers)
    (h : lowerAscii n ≠ lowerAscii m) :
    getAll m (hs.filter (fun p => lowerAscii p.1 != lowerAscii n)) = getAll m hs := by
  induction hs with
  | nil => rfl
  | cons p rest ih =>
    rw [List.filter_cons, getAll_cons]
    split <;> rename_i hp
    · rw [getAll_cons, ih]
    · simp only [bne_iff_ne, ne_eq, not_not] at hp
      rw [if_neg, ih]
      simp only [beq_iff_eq, hp]
      exact fun hc => h hc

theorem getAll_insertH (m n v : Str) (hs : Headers) :
    getAll m (insertH n v hs) =
      if lowerAscii n == lowerAscii m then [v] else getAll m hs := by
  unfold insertH
  rw [getAll_append]
  by_cases h : lowerAscii n = lowerAscii m
  · rw [if_pos (by simpa using h), getAll_filter_eq m n hs h, getAll_cons]
    rw [if_pos (by simp [lowerAscii_idem, h])]
    rfl
  · rw [if_neg (by simpa using h), getAll_filter_ne m n hs h, getAll_cons]
    rw [if_neg (by simp [lowerAscii_idem, h]), getAll_nil, List.append_nil]

theorem getAll_removeName_eq (m n : Str) (hs : Headers)
    (h : lowerAscii n = lowerAscii m) :
    getAll m (removeName n hs) = [] :=
  getAll_filter_eq m n hs h

theorem getAll_removeName_ne (m n : Str) (hs : Headers)
    (h : lowerAscii n ≠ lowerAscii m) :
    getAll m (removeName n hs) = getAll m hs :=
  getAll_filter_ne m n hs h

theorem mergeInto_nil (r : Headers) : mergeInto [] r = r := rfl

theorem mergeInto_cons (p : Str × Str) (extra r : Headers) :
    mergeInto (p :: extra) r = mergeInto extra (insertH p.1 p.2 r) := rfl

theorem getAll_mergeInto_notmem (m : Str) (extra r : Headers)
    (h : ∀ q ∈ extra, lowerAscii q.1 ≠ lowerAscii m) :
    getAll m (mergeInto extra r) = getAll m r := by
  induction extra generalizing r with
  | nil => rfl
  | cons q rest ih =>
    rw [mergeInto_cons, ih _ (fun q' hq' => h q' (List.mem_cons_of_mem _ hq')),
      getAll_insertH]
    rw [if_neg (by simpa using h q (List.mem_cons_self _ _))]

theorem getAll_mergeInto_mem (m : Str) (q : Str × Str) (pre post r : Headers)
    (hq : lowerAscii q.1 = lowerAscii m)
    (hpost : ∀ q' ∈ post, lowerAscii q'.1 ≠ lowerAscii m) :
    getAll m (mergeInto (pre ++ q :: post) r) = [q.2] := by
  induction pre generalizing r with
  | nil =>
    rw [List.nil_append, mergeInto_cons, getAll_mergeInto_notmem m post _ hpost,
      getAll_insertH, if_pos (by simpa using hq)]
  | cons p rest ih =>
    rw [List.cons_append, mergeInto_cons]
    exact ih _

theorem filterMap_congr_mem {α β : Type} (l : List α) (f g : α → Option β)
    (h : ∀ a ∈ l, f a = g a) : l.filterMap f = l.filterMap g := by
  induction l with
  | nil => rfl
  | cons a rest ih =>
    rw [List.filterMap_cons, List.filterMap_cons, h a (List.mem_cons_self _ _),
      ih (fun a ha => h a (List.mem_cons_of_mem _ ha))]

theorem getAll_filterMap {α : Type} (m : Str) (l : List α) (f : α → Option (Str × Str)) :
    getAll m (l.filterMap f) =
      l.filterMap (fun a => (f a).bind
        (fun q => if lowerAscii q.1 == lowerAscii m then some q.2 else none)) := by
  induction l with
  | nil => rfl
  | cons a rest ih =>
    rw [List.filterMap_cons, List.filterMap_cons]
    cases hf : f a with
    | none => simpa [hf] using ih
    | some q =>
      rw [getAll_cons]
      by_cases hq : lowerAscii q.1 = lowerAscii m <;> simp [hq, ih]

theorem responseEntry_proj (m : Str) (p : Str × Str) :
    (responseEntry p).bind
        (fun q => if lowerAscii q.1 == lowerAscii m then some q.2 else none)
      = respContrib (lowerAscii m) p := by
  unfold responseEntry respContrib
  by_cases hc : is_cors_header p.1
  · simp [hc]
  · by_cases hsc : eqIgnoreAsciiCase p.1 (bytes ("set-cookie"))
    · have hmk : mkHeaderName (bytes ("tun-set-cookie")) = some (bytes ("tun-set-cookie")) := by
        decide
      have hlo : lowerAscii (bytes ("tun-set-cookie")) = bytes ("tun-set-cookie") := by decide
      by_cases hv : isValidHeaderValue p.2
      · by_cases hm : bytes ("tun-set-cookie") = lowerAscii m
        · simp only [hc, hsc, hmk, hv, if_true, if_false, Bool.false_eq_true, Option.bind_some,
            Option.some_bind, hlo]
          simp [hm]
        · simp only [hc, hsc, hmk, hv, if_true, if_false, Bool.false_eq_true, Option.bind_some,
            Option.some_bind, hlo]
          simp [hm]
      · simp [hc, hsc, hmk, hv]
    · by_cases hn : isValidHeaderName p.1
      · by_cases hv : isValidHeaderValue p.2
        · by_cases hm : lowerAscii p.1 = lowerAscii m
          · simp [hc, hsc, hv, hm, mkHeaderName, hn, lowerAscii_idem]
          · simp [hc, hsc, hv, hm, mkHeaderName, hn, lowerAscii_idem]
        · simp [hc, hsc, hv, mkHeaderName, hn]
      · simp [hc, hsc, mkHeaderName, hn]

/-- Per-name characterisation of `copy_response_headers`: the values the
client sees under a name are the `tun-status` record (for redirects, under
that name) followed by the per-header contributions of the origin
response, in order. -/
theorem getAll_copy_response (src : Headers) (s : Nat) (m : Str) :
    getAll m (copy_response_headers src s) =
      (if (300 ≤ s ∧ s < 400) ∧ lowerAscii m = bytes ("tun-status") then [natDecStr s] else [])
      ++ src.filterMap (respContrib (lowerAscii m)) := by
  unfold copy_response_headers
  rw [getAll_append]
  have h2 : getAll m (src.filterMap responseEntry) = src.filterMap (respContrib (lowerAscii m)) := by
    rw [getAll_filterMap]
    exact filterMap_congr_mem _ _ _ (fun p _ => responseEntry_proj m p)
  have h1 : getAll m (if 300 ≤ s ∧ s < 400 then [(bytes ("tun-status"), natDecStr s)] else [])
      = if (300 ≤ s ∧ s < 400) ∧ lowerAscii m = bytes ("tun-status")
        then [natDecStr s] else [] := by
    have hts : lowerAscii (bytes ("tun-status")) = bytes ("tun-status") := by decide
    by_cases hr : 300 ≤ s ∧ s < 400
    · by_cases hm : lowerAscii m = bytes ("tun-status")
      · rw [if_pos hr, if_pos ⟨hr, hm⟩, getAll_cons, getAll_nil]
        simp [hts, hm]
      · have hm' : ¬(bytes ("tun-status") = lowerAscii m) := fun hx => hm hx.symm
        rw [if_pos hr, if_neg (fun hx => hm hx.2), getAll_cons, getAll_nil]
        simp [hts, hm']
    · rw [if_neg hr, if_neg (fun hx => hr hx.1)]
      rfl
  rw [h1, h2]

theorem contains_iff_mem (l : List Str) (x : Str) : l.contains x = true ↔ x ∈ l :=
  ⟨fun h => List.mem_of_elem_eq_true h, fun h => List.elem_eq_true_of_mem h⟩

theorem mem_collectTunNames (x : Str) (src : Headers) :
    x ∈ collectTunNames src ↔ tunPresent x src = true := by
  unfold collectTunNames tunPresent
  rw [List.mem_filterMap, List.any_eq_true]
  constructor
  · rintro ⟨p, hp, hx⟩
    refine ⟨p, hp, ?_⟩
    by_cases ht : isTunName p.1
    · rw [if_pos ht] at hx
      cases hx
      simp [ht]
    · rw [if_neg ht] at hx
      exact absurd hx (by simp)
  · rintro ⟨p, hp, hx⟩
    simp only [Bool.and_eq_true, beq_iff_eq] at hx
    exact ⟨p, hp, by rw [if_pos hx.1, hx.2]⟩

theorem requestEntry_proj_tun (T : List Str) (m : Str) (p : Str × Str)
    (ht : isTunName p.1 = true) :
    (requestEntry T p).bind
        (fun q => if lowerAscii q.1 == lowerAscii m then some q.2 else none)
      = reqTunContrib (lowerAscii m) p := by
  unfold requestEntry reqTunContrib
  by_cases hn : isValidHeaderName (p.1.drop 4)
  · by_cases hv : isValidHeaderValue p.2
    · by_cases heq : lowerAscii (p.1.drop 4) = lowerAscii m <;>
        simp [ht, hn, hv, heq, mkHeaderName, lowerAscii_idem]
    · simp [ht, hn, hv, mkHeaderName]
  · simp [ht, hn, mkHeaderName]

theorem requestEntry_proj_bare (T : List Str) (m : Str) (p : Str × Str)
    (ht : isTunName p.1 = false) :
    (requestEntry T p).bind
        (fun q => if lowerAscii q.1 == lowerAscii m then some q.2 else none)
      = if default_forward_headers.contains (lowerAscii p.1)
            && !(T.contains (lowerAscii p.1))
        then reqBareContrib (lowerAscii m) p else none := by
  unfold requestEntry reqBareContrib
  by_cases hlw : lowerAscii p.1 ∈ default_forward_headers
  · by_cases hTc : lowerAscii p.1 ∈ T
    · simp [ht, hlw, hTc, contains_iff_mem]
    · by_cases hn : isValidHeaderName p.1
      · by_cases hv : isValidHeaderValue p.2
        · by_cases heq : lowerAscii p.1 = lowerAscii m
          · rw [heq] at hlw hTc
            simp [ht, hlw, hTc, hn, hv, heq, mkHeaderName, lowerAscii_idem, contains_iff_mem]
          · simp [ht, hlw, hTc, hn, hv, heq, mkHeaderName, lowerAscii_idem, contains_iff_mem]
        · simp [ht, hlw, hTc, hn, hv, mkHeaderName, contains_iff_mem]
      · simp [ht, hlw, hTc, hn, mkHeaderName, contains_iff_mem]
  · simp [ht, hlw, contains_iff_mem]

/-- Per-name characterisation of `copy_request_headers` (claim C2): the
outbound values under a (lowercased) name are exactly the escape-prefixed
contributions when a `tun-` variant of the name is present anywhere
inbound, else the whitelisted bare contributions, else nothing. -/
theorem getAll_copy_request (src : Headers) (m : Str) :
    getAll m (copy_request_headers src) =
      if tunPresent (lowerAscii m) src then
        src.filterMap (reqTunContrib (lowerAscii m))
      else if default_forward_headers.contains (lowerAscii m) then
        src.filterMap (reqBareContrib (lowerAscii m))
      else [] := by
  unfold copy_request_headers
  rw [getAll_filterMap]
  by_cases hT : tunPresent (lowerAscii m) src
  · rw [if_pos hT]
    apply filterMap_congr_mem
    intro p hp
    by_cases ht : isTunName p.1
    · exact requestEntry_proj_tun _ m p ht
    · rw [requestEntry_proj_bare _ m p (by simpa using ht)]
      by_cases heq : lowerAscii p.1 = lowerAscii m
      · have hc : lowerAscii p.1 ∈ collectTunNames src := by
          rw [heq, mem_collectTunNames]
          exact hT
        simp [hc, contains_iff_mem, reqTunContrib, ht]
      · split
        · unfold reqBareContrib reqTunContrib
          simp [heq, ht]
        · unfold reqTunContrib
          simp [ht]
  · rw [if_neg hT]
    have htunNone : ∀ p ∈ src, isTunName p.1 = true →
        reqTunContrib (lowerAscii m) p = none := by
      intro p hp ht
      unfold reqTunContrib
      by_cases heq : lowerAscii (p.1.drop 4) = lowerAscii m
      · exact absurd (by
          unfold tunPresent
          rw [List.any_eq_true]
          exact ⟨p, hp, by simp [ht, heq]⟩) hT
      · simp [heq]
    by_cases hW : default_forward_headers.contains (lowerAscii m)
    · rw [if_pos hW]
      apply filterMap_congr_mem
      intro p hp
      by_cases ht : isTunName p.1
      · rw [requestEntry_proj_tun _ m p ht, htunNone p hp ht]
        unfold reqBareContrib
        simp [ht]
      · rw [requestEntry_proj_bare _ m p (by simpa using ht)]
        by_cases heq : lowerAscii p.1 = lowerAscii m
        · have hc : lowerAscii p.1 ∉ collectTunNames src := by
            rw [heq, mem_collectTunNames]
            exact fun hx => hT hx
          have hw' : lowerAscii p.1 ∈ default_forward_headers := by
            rw [heq]
            exact (contains_iff_mem _ _).1 hW
          simp [hc, hw', contains_iff_mem]
        · split
          · rfl
          · unfold reqBareContrib
            simp [heq]
    · rw [if_neg hW, List.filterMap_eq_nil_iff]
      intro p hp
      by_cases ht : isTunName p.1
      · rw [requestEntry_proj_tun _ m p ht]
        exact htunNone p hp ht
      · rw [requestEntry_proj_bare _ m p (by simpa using ht)]
        split
        · rename_i hcond
          by_cases heq : lowerAscii p.1 = lowerAscii m
          · rw [heq] at hcond
            simp only [Bool.and_eq_true] at hcond
            exact absurd hcond.1 hW
          · unfold reqBareContrib
            simp [heq]
        · rfl

/-! ## Byte-class and splitting lemmas for the URL model -/

theorem asciiLowerByte_alpha (b : Nat) :
    isAlphaByte (asciiLowerByte b) = isAlphaByte b := by
  unfold asciiLowerByte isAlphaByte
  split <;> rw [Bool.eq_iff_iff] <;> simp <;> omega

theorem asciiLowerByte_scheme (b : Nat) :
    isSchemeByte (asciiLowerByte b) = isSchemeByte b := by
  unfold asciiLowerByte isSchemeByte isAlphaByte isDigitByte
  split <;> rw [Bool.eq_iff_iff] <;> simp <;> omega

theorem asciiLowerByte_host (b : Nat) :
    isHostByte (asciiLowerByte b) = isHostByte b := by
  unfold asciiLowerByte isHostByte isAlphaByte isDigitByte
  split <;> rw [Bool.eq_iff_iff] <;> simp <;> omega

theorem asciiLowerByte_token (b : Nat) :
    isTokenByte (asciiLowerByte b) = isTokenByte b := by
  unfold asciiLowerByte isTokenByte
  split <;> rw [Bool.eq_iff_iff] <;> simp <;> omega

theorem all_lowerAscii (p : Nat → Bool) (s : Str)
    (hp : ∀ b, p (asciiLowerByte b) = p b) :
    (lowerAscii s).all p = s.all p := by
  induction s with
  | nil => rfl
  | cons b rest ih =>
    simp only [lowerAscii, List.map_cons, List.all_cons] at *
    rw [hp b, ih]

theorem schemeByte_facts (b : Nat) (h : isSchemeByte b = true) :
    b ≠ 58 ∧ 32 ≤ b ∧ b ≤ 126 := by
  unfold isSchemeByte isAlphaByte isDigitByte at h
  simp at h
  omega

theorem hostByte_facts (b : Nat) (h : isHostByte b = true) :
    b ≠ 58 ∧ isAuthDelim b = false ∧ 32 ≤ b ∧ b ≤ 126 := by
  unfold isHostByte isAlphaByte isDigitByte at h
  simp at h
  refine ⟨by omega, ?_, by omega, by omega⟩
  unfold isAuthDelim
  simp
  omega

theorem digitByte_facts (b : Nat) (h : isDigitByte b = true) :
    b ≠ 58 ∧ b ≠ 47 ∧ isAuthDelim b = false ∧ 32 ≤ b ∧ b ≤ 126 := by
  unfold isDigitByte at h
  simp at h
  refine ⟨by omega, by omega, ?_, by omega, by omega⟩
  unfold isAuthDelim
  simp
  omega

theorem visibleByte_valid (b : Nat) (h : isVisibleByte b = true) :
    isValidValueByte b = true := by
  unfold isVisibleByte at h
  unfold isValidValueByte
  simp at h
  simp
  omega

theorem visible_imp_validValue (s : Str) (h : s.all isVisibleByte = true) :
    isValidHeaderValue s = true := by
  unfold isValidHeaderValue
  rw [List.all_eq_true] at h ⊢
  exact fun b hb => visibleByte_valid b (h b hb)

theorem splitFirst_not_mem (d : Nat) (s : Str) (h : ∀ b ∈ s, b ≠ d) :
    splitFirst d s = (s, none) := by
  induction s with
  | nil => rfl
  | cons b rest ih =>
    unfold splitFirst
    rw [if_neg (h b (List.mem_cons_self _ _))]
    rw [ih (fun x hx => h x (List.mem_cons_of_mem _ hx))]

theorem splitFirst_append (d : Nat) (s r : Str) (h : ∀ b ∈ s, b ≠ d) :
    splitFirst d (s ++ d :: r) = (s, some r) := by
  induction s with
  | nil => simp [splitFirst]
  | cons b rest ih =>
    rw [List.cons_append]
    unfold splitFirst
    rw [if_neg (h b (List.mem_cons_self _ _))]
    rw [ih (fun x hx => h x (List.mem_cons_of_mem _ hx))]

theorem splitFirst_fst_subset (d : Nat) (s : Str) :
    ∀ b ∈ (splitFirst d s).1, b ∈ s := by
  induction s with
  | nil => simp [splitFirst]
  | cons c rest ih =>
    unfold splitFirst
    by_cases hc : c = d
    · rw [if_pos hc]
      simp
    · rw [if_neg hc]
      intro b hb
      rcases List.mem_cons.1 hb with h | h
      · exact h ▸ List.mem_cons_self _ _
      · exact List.mem_cons_of_mem _ (ih b h)

theorem splitFirst_snd_subset (d : Nat) (s r : Str)
    (hr : (splitFirst d s).2 = some r) : ∀ b ∈ r, b ∈ s := by
  induction s generalizing r with
  | nil => simp [splitFirst] at hr
  | cons c rest ih =>
    unfold splitFirst at hr
    by_cases hc : c = d
    · rw [if_pos hc] at hr
      cases hr
      exact fun b hb => List.mem_cons_of_mem _ hb
    · rw [if_neg hc] at hr
      exact fun b hb => List.mem_cons_of_mem _ (ih r hr b hb)

theorem takeWhile_all {p : Nat → Bool} (l : Str) (h : ∀ b ∈ l, p b = true) :
    l.takeWhile p = l := by
  induction l with
  | nil => rfl
  | cons b rest ih =>
    rw [List.takeWhile_cons, if_pos (h b (List.mem_cons_self _ _))]
    rw [ih (fun x hx => h x (List.mem_cons_of_mem _ hx))]

theorem head?_append_left {α : Type} (x y : List α) (h : x ≠ []) :
    (x ++ y).head? = x.head? := by
  cases x with
  | nil => exact absurd rfl h
  | cons a as => rfl

theorem dropWhile_head_false {p : Nat → Bool} (l : Str)
    (h : ∀ b, l.head? = some b → p b = false) : l.dropWhile p = l := by
  cases l with
  | nil => rfl
  | cons b rest =>
    rw [List.dropWhile_cons, if_neg]
    rw [h b rfl]
    simp

theorem trimEndSlashes_append (A B : Str)
    (hA : ∀ b, A.reverse.head? = some b → b ≠ 47) :
    trimEndSlashes (A ++ B) = A ++ trimEndSlashes B := by
  unfold trimEndSlashes
  rw [List.reverse_append]
  have hdrop : A.reverse.dropWhile (fun b => b == 47) = A.reverse :=
    dropWhile_head_false _ (fun b hb => by simpa using hA b hb)
  by_cases hB : B.reverse.dropWhile (fun b => b == 47) = []
  · rw [List.dropWhile_append, hB]
    simp only [List.isEmpty_nil, if_true]
    rw [hdrop]
    simp
  · rw [List.dropWhile_append]
    rw [if_neg (by simpa [List.isEmpty_iff] using hB)]
    rw [List.reverse_append, List.reverse_reverse]

theorem mem_trimEndSlashes (s : Str) : ∀ b ∈ trimEndSlashes s, b ∈ s := by
  intro b hb
  unfold trimEndSlashes at hb
  rw [List.mem_reverse] at hb
  have := List.dropWhile_sublist (l := s.reverse) (p := fun b => b == 47)
  exact List.mem_reverse.1 (this.mem hb)

theorem mem_trimStr (s : Str) : ∀ b ∈ trimStr s, b ∈ s := by
  intro b hb
  unfold trimStr at hb
  rw [List.mem_reverse] at hb
  have h1 := (List.dropWhile_sublist (l := (s.dropWhile isWsByte).reverse)
    (p := isWsByte)).mem hb
  rw [List.mem_reverse] at h1
  exact (List.dropWhile_sublist (l := s) (p := isWsByte)).mem h1

/-! ## Inversion lemmas for the URL parser -/

theorem parseSchemeSplit_wf (t sch rest : Str)
    (h : parseSchemeSplit t = some (sch, rest)) :
    sch ≠ [] ∧ sch.all isSchemeByte = true ∧
    (∃ c cs, sch = c :: cs ∧ isAlphaByte c = true) ∧
    splitFirst 58 t = (sch, some rest) := by
  unfold parseSchemeSplit at h
  split at h
  · exact absurd h (by simp)
  · rename_i sch' rest' heq
    split at h
    · exact absurd h (by simp)
    · rename_i c cs
      split at h
      · rename_i hcond
        cases h
        simp only [Bool.and_eq_true] at hcond
        exact ⟨by simp, hcond.2, ⟨c, cs, rfl, hcond.1⟩, heq⟩
      · exact absurd h (by simp)

theorem parsePortStr_wf (ps : Str) (port : Option Str)
    (h : parsePortStr ps = some port) :
    ∀ p, port = some p → p ≠ [] ∧ p.all isDigitByte = true ∧ strToNat p ≤ 65535 := by
  unfold parsePortStr at h
  split at h
  · cases h
    intro p hp
    exact absurd hp (by simp)
  · rename_i hne
    split at h
    · rename_i hcond
      cases h
      intro p hp
      cases hp
      simp only [Bool.and_eq_true, decide_eq_true_eq] at hcond
      exact ⟨hne, hcond.1, hcond.2⟩
    · exact absurd h (by simp)

theorem parseAuthority_wf (a host : Str) (port : Option Str)
    (h : parseAuthority a = some (host, port)) :
    host ≠ [] ∧ host.all isHostByte = true ∧
    (∀ p, port = some p → p ≠ [] ∧ p.all isDigitByte = true ∧ strToNat p ≤ 65535) ∧
    (splitFirst 58 a).1 = host := by
  unfold parseAuthority at h
  split at h
  rename_i h' portPart heq
  split at h
  · exact absurd h (by simp)
  · rename_i hcond
    simp only [Bool.or_eq_true, decide_eq_true_eq, Bool.not_eq_true'] at hcond
    push_neg at hcond
    have hne : h' ≠ [] := hcond.1
    have hall : h'.all isHostByte = true := by
      cases hx : h'.all isHostByte
      · exact absurd hx hcond.2
      · rfl
    cases portPart with
    | none =>
      dsimp only at h
      cases h
      exact ⟨hne, hall, fun p hp => absurd hp (by simp), by rw [heq]⟩
    | some ps =>
      dsimp only at h
      cases hpp : parsePortStr ps with
      | none => rw [hpp] at h; exact absurd h (by simp)
      | some port' =>
        rw [hpp] at h
        cases h
        exact ⟨hne, hall, parsePortStr_wf ps _ hpp, by rw [heq]⟩

theorem parseUrl_wf (t : Str) (u : UrlModel) (h : parseUrl t = some u) :
    (∃ c cs, u.scheme = c :: cs ∧ isAlphaByte c = true) ∧
    u.scheme.all isSchemeByte = true ∧ lowerAscii u.scheme = u.scheme ∧
    u.host ≠ [] ∧ u.host.all isHostByte = true ∧ lowerAscii u.host = u.host ∧
    (∀ p, u.port = some p → p ≠ [] ∧ p.all isDigitByte = true ∧ strToNat p ≤ 65535) ∧
    (∀ f, u.fragment = some f → f.all isVisibleByte = true) := by
  unfold parseUrl at h
  cases hps : parseSchemeSplit t with
  | none => rw [hps] at h; exact absurd h (by simp)
  | some sr =>
    rw [hps] at h
    obtain ⟨sch, rest⟩ := sr
    obtain ⟨hs1, hs2, ⟨c, cs, hcc, hca⟩, _⟩ := parseSchemeSplit_wf t sch rest hps
    dsimp only at h
    split at h
    · rename_i rest2 hspl
      cases hpa : parseAuthority (rest2.takeWhile (fun b => !(isAuthDelim b))) with
      | none => rw [hpa] at h; exact absurd h (by simp)
      | some hp' =>
        rw [hpa] at h
        obtain ⟨host, port⟩ := hp'
        obtain ⟨hh1, hh2, hh3, _⟩ := parseAuthority_wf _ host port hpa
        dsimp only at h
        split at h
        · rename_i hvis
          cases h
          refine ⟨⟨asciiLowerByte c, lowerAscii cs, by rw [hcc]; rfl,
              by rw [asciiLowerByte_alpha]; exact hca⟩,
            by rw [all_lowerAscii _ _ asciiLowerByte_scheme]; exact hs2,
            lowerAscii_idem sch,
            by simpa [lowerAscii] using hh1,
            by rw [all_lowerAscii _ _ asciiLowerByte_host]; exact hh2,
            lowerAscii_idem host, hh3, ?_⟩
          intro f hf
          simp only at hf
          rw [List.all_eq_true]
          intro b hb
          have hmem := splitFirst_snd_subset 35 _ f hf b hb
          rw [List.all_eq_true] at hvis
          exact hvis b hmem
        · exact absurd h (by simp)
    · exact absurd h (by simp)

theorem mem_of_head? {α : Type} (l : List α) (b : α) (h : l.head? = some b) : b ∈ l := by
  cases l with
  | nil => simp at h
  | cons a as =>
    simp at h
    exact h ▸ List.mem_cons_self _ _

theorem bytes_sep : bytes ("://") = 58 :: 47 :: 47 :: [] := rfl

theorem authority_nodelim (h : Str) (po : Option Str)
    (hh2 : h.all isHostByte = true)
    (hp : ∀ p, po = some p → p ≠ [] ∧ p.all isDigitByte = true ∧ strToNat p ≤ 65535) :
    ∀ b ∈ h ++ renderPort po, (!(isAuthDelim b)) = true := by
  intro b hb
  rcases List.mem_append.1 hb with hbh | hbp
  · rw [List.all_eq_true] at hh2
    rw [(hostByte_facts b (hh2 b hbh)).2.1]
    rfl
  · cases po with
    | none => simp [renderPort] at hbp
    | some p =>
      simp only [renderPort] at hbp
      rcases List.mem_cons.1 hbp with rfl | hbp'
      · rfl
      · have hd := (hp p rfl).2.1
        rw [List.all_eq_true] at hd
        rw [(digitByte_facts b (hd b hbp')).2.2.1]
        rfl

theorem splitFirst_authority (h : Str) (po : Option Str)
    (hh2 : h.all isHostByte = true) :
    splitFirst 58 (h ++ renderPort po) =
      (h, match po with | none => none | some p => some p) := by
  have hno : ∀ b ∈ h, b ≠ 58 := by
    intro b hb
    rw [List.all_eq_true] at hh2
    exact (hostByte_facts b (hh2 b hb)).1
  cases po with
  | none =>
    rw [renderPort, List.append_nil]
    exact splitFirst_not_mem 58 h hno
  | some p =>
    rw [renderPort]
    exact splitFirst_append 58 h p hno

theorem parseUrl_originOf (s h : Str) (po : Option Str)
    (hs1 : ∃ c cs, s = c :: cs ∧ isAlphaByte c = true)
    (hs2 : s.all isSchemeByte = true)
    (hh1 : h ≠ []) (hh2 : h.all isHostByte = true)
    (hp : ∀ p, po = some p → p ≠ [] ∧ p.all isDigitByte = true ∧ strToNat p ≤ 65535) :
    parseUrl (s ++ bytes ("://") ++ h ++ renderPort po) =
      some ⟨lowerAscii s, lowerAscii h, po, [], none, none⟩ := by
  have hsno : ∀ b ∈ s, b ≠ 58 := by
    intro b hb
    rw [List.all_eq_true] at hs2
    exact (schemeByte_facts b (hs2 b hb)).1
  have hassoc : s ++ bytes ("://") ++ h ++ renderPort po
      = s ++ 58 :: (47 :: 47 :: (h ++ renderPort po)) := by
    rw [bytes_sep]
    simp [List.append_assoc]
  rw [hassoc]
  have hpss : parseSchemeSplit (s ++ 58 :: (47 :: 47 :: (h ++ renderPort po)))
      = some (s, 47 :: 47 :: (h ++ renderPort po)) := by
    unfold parseSchemeSplit
    rw [splitFirst_append 58 s _ hsno]
    obtain ⟨c, cs, rfl, hca⟩ := hs1
    dsimp only
    rw [if_pos]
    simp [hca, hs2]
  unfold parseUrl
  rw [hpss]
  dsimp only
  have htake : (h ++ renderPort po).takeWhile (fun b => !(isAuthDelim b))
      = h ++ renderPort po :=
    takeWhile_all _ (authority_nodelim h po hh2 hp)
  rw [htake, List.drop_length]
  have hpa : parseAuthority (h ++ renderPort po)
      = some (h, po) := by
    unfold parseAuthority
    rw [splitFirst_authority h po hh2]
    cases po with
    | none =>
      dsimp only
      rw [if_neg (by simp [hh1, hh2] :
        ¬((decide (h = []) || !(h.all isHostByte)) = true))]
    | some p =>
      dsimp only
      rw [if_neg (by simp [hh1, hh2] :
        ¬((decide (h = []) || !(h.all isHostByte)) = true))]
      unfold parsePortStr
      rw [if_neg (hp p rfl).1, if_pos (by simp [(hp p rfl).2.1, (hp p rfl).2.2])]
  rw [hpa]
  dsimp only
  rfl

theorem origin_rev_head_ne47 (s h : Str) (po : Option Str)
    (hh1 : h ≠ []) (hh2 : h.all isHostByte = true)
    (hp : ∀ p, po = some p → p ≠ [] ∧ p.all isDigitByte = true ∧ strToNat p ≤ 65535) :
    ∀ b, (s ++ bytes ("://") ++ h ++ renderPort po).reverse.head? = some b → b ≠ 47 := by
  intro b hb
  cases po with
  | none =>
    rw [renderPort, List.append_nil, List.reverse_append,
      head?_append_left _ _ (by simp [hh1])] at hb
    have hm := List.mem_reverse.1 (mem_of_head? _ b hb)
    rw [List.all_eq_true] at hh2
    have hfacts := hostByte_facts b (hh2 b hm)
    intro hc
    rw [hc] at hfacts
    exact absurd hfacts.2.1 (by decide)
  | some p =>
    have hp' := hp p rfl
    rw [renderPort, List.reverse_append, List.reverse_cons,
      head?_append_left _ _ (by simp),
      head?_append_left _ _ (by simp [hp'.1])] at hb
    have hm := List.mem_reverse.1 (mem_of_head? _ b hb)
    have hd := hp'.2.1
    rw [List.all_eq_true] at hd
    exact (digitByte_facts b (hd b hm)).2.1

theorem parse_origin_url_eq (t : Str) (u : UrlModel)
    (h : parseUrl t = some u) (hf : u.fragment = none) :
    parse_origin_url t = some (originOf u) := by
  obtain ⟨hA1, hA2, hA3, hB1, hB2, hB3, hC, _⟩ := parseUrl_wf t u h
  unfold parse_origin_url
  rw [h]
  show some _ = some (originOf u)
  congr 1
  unfold renderUrl
  dsimp only
  rw [hf]
  dsimp only
  rw [List.append_nil, List.append_nil]
  have hb : bytes ("/") = [47] := rfl
  rw [hb]
  rw [trimEndSlashes_append _ [47] (origin_rev_head_ne47 u.scheme u.host u.port hB1 hB2 hC)]
  rw [show trimEndSlashes [47] = [] from rfl, List.append_nil]
  rfl

theorem parseUrl_hasSchemeHost (t : Str) (u : UrlModel) (h : parseUrl t = some u) :
    hasScheme t = true ∧ hasHost t = true := by
  unfold parseUrl at h
  cases hps : parseSchemeSplit t with
  | none => rw [hps] at h; exact absurd h (by simp)
  | some sr =>
    rw [hps] at h
    obtain ⟨sch, rest⟩ := sr
    dsimp only at h
    split at h
    · rename_i rest2
      refine ⟨by unfold hasScheme; rw [hps]; rfl, ?_⟩
      unfold hasHost
      rw [hps]
      cases hpa : parseAuthority (rest2.takeWhile (fun b => !(isAuthDelim b))) with
      | none => rw [hpa] at h; exact absurd h (by simp)
      | some hp' =>
        obtain ⟨host, port⟩ := hp'
        obtain ⟨hh1, _, _, hsp⟩ := parseAuthority_wf _ host port hpa
        dsimp only
        rw [hsp]
        simp [hh1]
    · exact absurd h (by simp)

/-! ## Resolution lemmas for full URLs (claims C3 and C8) -/

theorem takeWhile_append_stop {p : Nat → Bool} (X : Str) (d : Nat) (tl : Str)
    (hX : ∀ b ∈ X, p b = true) (hd : p d = false) :
    (X ++ d :: tl).takeWhile p = X := by
  induction X with
  | nil => simp [List.takeWhile_cons, hd]
  | cons b rest ih =>
    rw [List.cons_append, List.takeWhile_cons, if_pos (hX b (List.mem_cons_self _ _))]
    rw [ih (fun x hx => hX x (List.mem_cons_of_mem _ hx))]

theorem trimEndSlashes_prefix (s : Str) : trimEndSlashes s <+: s := by
  unfold trimEndSlashes
  have h1 : s.reverse.dropWhile (fun b => b == 47) <:+ s.reverse :=
    List.dropWhile_suffix _
  rw [← List.reverse_reverse s]
  exact List.reverse_prefix.2 (by simpa using h1)

theorem full_shape (x : Str) (h : is_full_url x = true) :
    (∃ r, x = bytes ("http://") ++ r) ∨ (∃ r, x = bytes ("https://") ++ r) := by
  unfold is_full_url at h
  rw [Bool.or_eq_true] at h
  rcases h with h | h
  · left
    obtain ⟨r, hr⟩ := List.isPrefixOf_iff_prefix.1 h
    exact ⟨r, hr.symm⟩
  · right
    obtain ⟨r, hr⟩ := List.isPrefixOf_iff_prefix.1 h
    exact ⟨r, hr.symm⟩

theorem full_head (x : Str) (h : is_full_url x = true) : ∃ r, x = 104 :: r := by
  rcases full_shape x h with ⟨r, rfl⟩ | ⟨r, rfl⟩
  · exact ⟨(bytes ("ttp://")) ++ r, rfl⟩
  · exact ⟨(bytes ("ttps://")) ++ r, rfl⟩

theorem full_not_protorel (x : Str) (h : is_full_url x = true) :
    (bytes ("//")).isPrefixOf x = false := by
  obtain ⟨r, rfl⟩ := full_head x h
  rfl

theorem resolve_of_full (o x : Str) (hx : is_full_url x = true) :
    resolveLocation o x = x := by
  unfold resolveLocation
  rw [full_not_protorel x hx]
  simp [hx]

theorem is_full_url_append (o y : Str) (h : is_full_url o = true) :
    is_full_url (o ++ y) = true := by
  unfold is_full_url at h ⊢
  rw [Bool.or_eq_true] at h ⊢
  rcases h with h | h
  · exact Or.inl (List.isPrefixOf_iff_prefix.2
      ((List.isPrefixOf_iff_prefix.1 h).trans (List.prefix_append o y)))
  · exact Or.inr (List.isPrefixOf_iff_prefix.2
      ((List.isPrefixOf_iff_prefix.1 h).trans (List.prefix_append o y)))

theorem parseUrl_of_full_prefix (o : Str) (h : is_full_url o = true) :
    parseUrl o = none ∨
    (∃ u, parseUrl o = some u ∧ (u.scheme = bytes ("http") ∨ u.scheme = bytes ("https"))) := by
  cases hpu : parseUrl o with
  | none => exact Or.inl rfl
  | some u =>
    refine Or.inr ⟨u, rfl, ?_⟩
    rcases full_shape o h with ⟨r, hr⟩ | ⟨r, hr⟩
    · left
      have hsp : splitFirst 58 o = (bytes ("http"), some (47 :: 47 :: r)) := by
        rw [hr, show bytes ("http://") ++ r = bytes ("http") ++ 58 :: (47 :: 47 :: r) from rfl]
        exact splitFirst_append 58 _ _ (by decide)
      unfold parseUrl at hpu
      unfold parseSchemeSplit at hpu
      rw [hsp] at hpu
      rw [show bytes ("http") = 104 :: 116 :: 116 :: 112 :: [] from rfl] at hpu
      dsimp only at hpu
      rw [if_pos (by decide)] at hpu
      dsimp only at hpu
      cases hpa : parseAuthority (r.takeWhile (fun b => !(isAuthDelim b))) with
      | none => rw [hpa] at hpu; exact absurd hpu (by simp)
      | some hp' =>
        obtain ⟨host, port⟩ := hp'
        rw [hpa] at hpu
        dsimp only at hpu
        split at hpu
        · cases hpu
          rfl
        · exact absurd hpu (by simp)
    · right
      have hsp : splitFirst 58 o = (bytes ("https"), some (47 :: 47 :: r)) := by
        rw [hr, show bytes ("https://") ++ r = bytes ("https") ++ 58 :: (47 :: 47 :: r) from rfl]
        exact splitFirst_append 58 _ _ (by decide)
      unfold parseUrl at hpu
      unfold parseSchemeSplit at hpu
      rw [hsp] at hpu
      rw [show bytes ("https") = 104 :: 116 :: 116 :: 112 :: 115 :: [] from rfl] at hpu
      dsimp only at hpu
      rw [if_pos (by decide)] at hpu
      dsimp only at hpu
      cases hpa : parseAuthority (r.takeWhile (fun b => !(isAuthDelim b))) with
      | none => rw [hpa] at hpu; exact absurd hpu (by simp)
      | some hp' =>
        obtain ⟨host, port⟩ := hp'
        rw [hpa] at hpu
        dsimp only at hpu
        split at hpu
        · cases hpu
          rfl
        · exact absurd hpu (by simp)

theorem resolveLocation_idem_of_full (o l : Str) (ho : is_full_url o = true) :
    resolveLocation o (resolveLocation o l) = resolveLocation o l := by
  by_cases hpp : (bytes ("//")).isPrefixOf l = true
  · rcases parseUrl_of_full_prefix o ho with hnone | ⟨u, hu, hsch⟩
    · have hr : resolveLocation o l = l := by
        unfold resolveLocation
        rw [hpp, hnone]
        simp
      rw [hr]
      exact hr
    · have hne : u.scheme ≠ [] := by
        rcases hsch with h | h <;> rw [h] <;> decide
      have hr : resolveLocation o l = u.scheme ++ bytes (":") ++ l := by
        unfold resolveLocation
        rw [hpp, hu]
        simp [hne]
      rw [hr]
      obtain ⟨l', rfl⟩ : ∃ l', l = 47 :: 47 :: l' := by
        obtain ⟨r, hr'⟩ := List.isPrefixOf_iff_prefix.1 hpp
        exact ⟨r, hr'.symm⟩
      have hfull : is_full_url (u.scheme ++ bytes (":") ++ (47 :: 47 :: l')) = true := by
        rcases hsch with h | h <;> rw [h]
        · rw [show bytes ("http") ++ bytes (":") ++ (47 :: 47 :: l')
              = bytes ("http://") ++ l' from rfl]
          exact is_full_url_append _ _ (by decide)
        · rw [show bytes ("https") ++ bytes (":") ++ (47 :: 47 :: l')
              = bytes ("https://") ++ l' from rfl]
          exact is_full_url_append _ _ (by decide)
      exact resolve_of_full o _ hfull
  · by_cases hf : is_full_url l = true
    · rw [resolve_of_full o l hf, resolve_of_full o l hf]
    · have hr : resolveLocation o l =
          (if is_absolute_path l then o ++ l
           else o ++ bytes ("/") ++ l.dropWhile (fun b => b == 47)) := by
        unfold resolveLocation
        rw [(by simp only [Bool.not_eq_true] at hpp; exact hpp :
          (bytes ("//")).isPrefixOf l = false)]
        simp [hf]
      rw [hr]
      split
      · exact resolve_of_full o _ (is_full_url_append o l ho)
      · rw [List.append_assoc]
        exact resolve_of_full o _ (is_full_url_append o _ ho)

theorem parseAuthority_origin (h : Str) (po : Option Str)
    (hh1 : h ≠ []) (hh2 : h.all isHostByte = true)
    (hp : ∀ p, po = some p → p ≠ [] ∧ p.all isDigitByte = true ∧ strToNat p ≤ 65535) :
    parseAuthority (h ++ renderPort po) = some (h, po) := by
  unfold parseAuthority
  rw [splitFirst_authority h po hh2]
  cases po with
  | none =>
    dsimp only
    rw [if_neg (by simp [hh1, hh2] :
      ¬((decide (h = []) || !(h.all isHostByte)) = true))]
  | some p =>
    dsimp only
    rw [if_neg (by simp [hh1, hh2] :
      ¬((decide (h = []) || !(h.all isHostByte)) = true))]
    unfold parsePortStr
    rw [if_neg (hp p rfl).1, if_pos (by simp [(hp p rfl).2.1, (hp p rfl).2.2])]

theorem parseUrl_origin_tail (s h : Str) (po : Option Str) (tl : Str)
    (hs1 : ∃ c cs, s = c :: cs ∧ isAlphaByte c = true)
    (hs2 : s.all isSchemeByte = true)
    (hh1 : h ≠ []) (hh2 : h.all isHostByte = true)
    (hp : ∀ p, po = some p → p ≠ [] ∧ p.all isDigitByte = true ∧ strToNat p ≤ 65535)
    (hvis : (47 :: tl).all isVisibleByte = true) :
    ∃ w, parseUrl (s ++ bytes ("://") ++ h ++ renderPort po ++ (47 :: tl)) = some w ∧
      w.scheme = lowerAscii s := by
  have hsno : ∀ b ∈ s, b ≠ 58 := by
    intro b hb
    rw [List.all_eq_true] at hs2
    exact (schemeByte_facts b (hs2 b hb)).1
  have hassoc : s ++ bytes ("://") ++ h ++ renderPort po ++ (47 :: tl)
      = s ++ 58 :: (47 :: 47 :: ((h ++ renderPort po) ++ (47 :: tl))) := by
    rw [bytes_sep]
    simp [List.append_assoc]
  rw [hassoc]
  have hpss : parseSchemeSplit (s ++ 58 :: (47 :: 47 :: ((h ++ renderPort po) ++ (47 :: tl))))
      = some (s, 47 :: 47 :: ((h ++ renderPort po) ++ (47 :: tl))) := by
    unfold parseSchemeSplit
    rw [splitFirst_append 58 s _ hsno]
    obtain ⟨c, cs, rfl, hca⟩ := hs1
    dsimp only
    rw [if_pos]
    simp [hca, hs2]
  unfold parseUrl
  rw [hpss]
  dsimp only
  have htake : ((h ++ renderPort po) ++ (47 :: tl)).takeWhile (fun b => !(isAuthDelim b))
      = h ++ renderPort po :=
    takeWhile_append_stop _ 47 tl (authority_nodelim h po hh2 hp) rfl
  rw [htake, List.drop_left]
  rw [parseAuthority_origin h po hh1 hh2 hp]
  dsimp only
  rw [if_pos hvis]
  exact ⟨_, rfl, rfl⟩

theorem origin_shape (t : Str) (u : UrlModel) (o : Str)
    (hu : parseUrl t = some u) (ho : parse_origin_url t = some o) :
    ∃ tail, o = originOf u ++ tail ∧
      (tail = [] ∨ ∃ tl, tail = 47 :: tl) ∧
      (∀ b ∈ tail, isVisibleByte b = true) := by
  obtain ⟨A1, A2, A3, B1, B2, B3, C, D⟩ := parseUrl_wf t u hu
  have ho2 : trimEndSlashes (renderUrl { u with path := bytes ("/"), query := none }) = o := by
    have hx : parse_origin_url t
        = some (trimEndSlashes (renderUrl { u with path := bytes ("/"), query := none })) := by
      unfold parse_origin_url
      rw [hu]
      rfl
    rw [hx] at ho
    exact Option.some.inj ho
  cases hfr : u.fragment with
  | none =>
    have heq := parse_origin_url_eq t u hu hfr
    rw [heq] at ho
    refine ⟨[], by rw [List.append_nil]; exact (Option.some.inj ho).symm, Or.inl rfl, by simp⟩
  | some f =>
    have hrender : renderUrl { u with path := bytes ("/"), query := none }
        = (u.scheme ++ bytes ("://") ++ u.host ++ renderPort u.port) ++ (47 :: 35 :: f) := by
      unfold renderUrl
      dsimp only
      rw [hfr]
      rw [show bytes ("/") = [47] from rfl]
      simp [List.append_assoc]
    rw [hrender] at ho2
    rw [trimEndSlashes_append _ _ (origin_rev_head_ne47 u.scheme u.host u.port B1 B2 C)] at ho2
    refine ⟨trimEndSlashes (47 :: 35 :: f), ho2.symm, ?_, ?_⟩
    · obtain ⟨suf, hsuf⟩ := trimEndSlashes_prefix (47 :: 35 :: f)
      cases hte : trimEndSlashes (47 :: 35 :: f) with
      | nil => exact Or.inl rfl
      | cons b bs =>
        rw [hte] at hsuf
        rw [List.cons_append] at hsuf
        injection hsuf with h1 h2
        exact Or.inr ⟨bs, by rw [h1]⟩
    · intro b hb
      have hmem := mem_trimEndSlashes _ b hb
      rcases List.mem_cons.1 hmem with rfl | hmem'
      · rfl
      · rcases List.mem_cons.1 hmem' with rfl | hmem''
        · rfl
        · have hfv := D f hfr
          rw [List.all_eq_true] at hfv
          exact hfv b hmem''

theorem origin_derived_facts (t : Str) (u : UrlModel) (o : Str)
    (hu : parseUrl t = some u) (ho : parse_origin_url t = some o) :
    (∃ w, parseUrl o = some w ∧ w.scheme = u.scheme) ∧
    o.takeWhile (fun b => b != 58) = u.scheme ∧
    o.all isVisibleByte = true ∧
    ((u.scheme = bytes ("http") ∨ u.scheme = bytes ("https")) → is_full_url o = true) := by
  obtain ⟨A1, A2, A3, B1, B2, B3, C, D⟩ := parseUrl_wf t u hu
  obtain ⟨tail, rfl, hshape, hvis⟩ := origin_shape t u o hu ho
  have hsno : ∀ b ∈ u.scheme, (b != 58) = true := by
    intro b hb
    rw [List.all_eq_true] at A2
    simp [(schemeByte_facts b (A2 b hb)).1]
  have hassoc : originOf u ++ tail
      = u.scheme ++ 58 :: (47 :: 47 :: ((u.host ++ renderPort u.port) ++ tail)) := by
    unfold originOf
    rw [bytes_sep]
    simp [List.append_assoc]
  refine ⟨?_, ?_, ?_, ?_⟩
  · rcases hshape with rfl | ⟨tl, rfl⟩
    · rw [List.append_nil]
      refine ⟨_, parseUrl_originOf u.scheme u.host u.port A1 A2 B1 B2 C, ?_⟩
      dsimp only
      exact A3
    · obtain ⟨w, hw, hws⟩ := parseUrl_origin_tail u.scheme u.host u.port tl A1 A2 B1 B2 C
        (by
          rw [List.all_eq_true]
          intro b hb
          exact hvis b hb)
      exact ⟨w, hw, by rw [hws, A3]⟩
  · rw [hassoc]
    exact takeWhile_append_stop u.scheme 58 _ hsno rfl
  · rw [List.all_eq_true]
    intro b hb
    rcases List.mem_append.1 hb with hb' | hb'
    · unfold originOf at hb'
      rcases List.mem_append.1 hb' with hb'' | hbp
      · rcases List.mem_append.1 hb'' with hb3 | hbh
        · rcases List.mem_append.1 hb3 with hbs | hbsep
          · rw [List.all_eq_true] at A2
            have := schemeByte_facts b (A2 b hbs)
            unfold isVisibleByte
            simp
            omega
          · rw [bytes_sep] at hbsep
            rcases List.mem_cons.1 hbsep with rfl | hx
            · rfl
            · rcases List.mem_cons.1 hx with rfl | hx'
              · rfl
              · rcases List.mem_cons.1 hx' with rfl | hx''
                · rfl
                · simp at hx''
        · rw [List.all_eq_true] at B2
          have := hostByte_facts b (B2 b hbh)
          unfold isVisibleByte
          simp
          omega
      · cases hpo : u.port with
        | none => rw [hpo] at hbp; simp [renderPort] at hbp
        | some p =>
          rw [hpo] at hbp
          simp only [renderPort] at hbp
          rcases List.mem_cons.1 hbp with rfl | hbp'
          · rfl
          · have hd := (C p hpo).2.1
            rw [List.all_eq_true] at hd
            have := digitByte_facts b (hd b hbp')
            unfold isVisibleByte
            simp
            omega
    · exact hvis b hb'
  · intro hsch
    have hpre : ∃ y, originOf u ++ tail = u.scheme ++ bytes ("://") ++ y := by
      refine ⟨u.host ++ renderPort u.port ++ tail, ?_⟩
      unfold originOf
      simp [List.append_assoc]
    obtain ⟨y, hy⟩ := hpre
    rw [hy]
    rcases hsch with h | h <;> rw [h]
    · rw [show bytes ("http") ++ bytes ("://") ++ y = bytes ("http://") ++ y from rfl]
      exact is_full_url_append _ _ (by decide)
    · rw [show bytes ("https") ++ bytes ("://") ++ y = bytes ("https://") ++ y from rfl]
      exact is_full_url_append _ _ (by decide)

/-! ## Finding the Location header in the translated response (claim C3) -/

theorem isValidHeaderName_lower (n : Str) :
    isValidHeaderName (lowerAscii n) = isValidHeaderName n := by
  unfold isValidHeaderName
  rw [all_lowerAscii _ _ asciiLowerByte_token]
  cases n <;> rfl

theorem responseEntry_shape (q : Str × Str) (hn v : Str)
    (h : responseEntry q = some (hn, v)) :
    v = q.2 ∧ (hn = bytes ("tun-set-cookie") ∨ hn = lowerAscii q.1) := by
  unfold responseEntry at h
  split at h
  · exact absurd h (by simp)
  · dsimp only at h
    by_cases hsc : eqIgnoreAsciiCase q.1 (bytes ("set-cookie")) = true
    · rw [if_pos hsc,
        show mkHeaderName (bytes ("tun-set-cookie")) = some (bytes ("tun-set-cookie")) from
          by decide] at h
      dsimp only at h
      split at h
      · injection h with h'
        injection h' with h1 h2
        exact ⟨h2.symm, Or.inl h1.symm⟩
      · exact absurd h (by simp)
    · rw [if_neg hsc] at h
      cases hmk : mkHeaderName q.1 with
      | none => rw [hmk] at h; exact absurd h (by simp)
      | some hn' =>
        rw [hmk] at h
        dsimp only at h
        split at h
        · injection h with h'
          injection h' with h1 h2
          unfold mkHeaderName at hmk
          split at hmk
          · injection hmk with hmk'
            exact ⟨h2.symm, Or.inr (by rw [← h1, ← hmk'])⟩
          · exact absurd hmk (by simp)
        · exact absurd h (by simp)

theorem find?_cons_true {α : Type} (p : α → Bool) (a : α) (l : List α)
    (h : p a = true) : (a :: l).find? p = some a := by
  rw [List.find?_cons, h]

theorem find?_cons_false {α : Type} (p : α → Bool) (a : α) (l : List α)
    (h : p a = false) : (a :: l).find? p = l.find? p := by
  rw [List.find?_cons, h]

theorem find?_filterMap_location (uhs : Headers) (pr : Str × Str)
    (hf : uhs.find? (fun p => lowerAscii p.1 == lowerAscii (bytes ("location"))) = some pr)
    (hv : isValidHeaderValue pr.2 = true) :
    (uhs.filterMap responseEntry).find?
        (fun p => lowerAscii p.1 == lowerAscii (bytes ("location")))
      = some (bytes ("location"), pr.2) := by
  induction uhs with
  | nil => simp at hf
  | cons q rest ih =>
    by_cases hq : (lowerAscii q.1 == lowerAscii (bytes ("location"))) = true
    · rw [find?_cons_true (fun p => lowerAscii p.1 == lowerAscii (bytes ("location")))
        q rest (by exact hq)] at hf
      have hpr : pr = q := by injection hf with h'; exact h'.symm
      rw [hpr]
      rw [hpr] at hv
      have hlq : lowerAscii q.1 = bytes ("location") := by
        have := beq_iff_eq.1 hq
        rwa [show lowerAscii (bytes ("location")) = bytes ("location") from by decide] at this
      have hre : responseEntry q = some (bytes ("location"), q.2) := by
        unfold responseEntry
        rw [if_neg (by
          unfold is_cors_header
          rw [hlq]
          decide)]
        dsimp only
        rw [if_neg (by
          unfold eqIgnoreAsciiCase
          rw [hlq]
          decide)]
        unfold mkHeaderName
        rw [if_pos (by rw [← isValidHeaderName_lower, hlq]; decide), hlq]
        dsimp only
        rw [if_pos hv]
      rw [List.filterMap_cons, hre]
      exact find?_cons_true (fun p => lowerAscii p.1 == lowerAscii (bytes ("location")))
        ((bytes ("location")), q.2) _
        (by exact (by decide :
          (lowerAscii (bytes ("location")) == lowerAscii (bytes ("location"))) = true))
    · rw [Bool.not_eq_true] at hq
      rw [find?_cons_false (fun p => lowerAscii p.1 == lowerAscii (bytes ("location")))
        q rest (by exact hq)] at hf
      rw [List.filterMap_cons]
      cases hre : responseEntry q with
      | none => exact ih hf
      | some e =>
        obtain ⟨hn, v⟩ := e
        obtain ⟨hve, hshape⟩ := responseEntry_shape q hn v hre
        have hpred : (lowerAscii hn == lowerAscii (bytes ("location"))) = false := by
          rcases hshape with rfl | rfl
          · decide
          · rw [lowerAscii_idem]
            exact hq
        rw [find?_cons_false (fun p => lowerAscii p.1 == lowerAscii (bytes ("location")))
          (hn, v) _ (by exact hpred)]
        exact ih hf

theorem findCI_location_copy_response (uhs : Headers) (s : Nat) (pr : Str × Str)
    (hf : findCI (bytes ("location")) uhs = some pr)
    (hv : isValidHeaderValue pr.2 = true) :
    findCI (bytes ("location")) (copy_response_headers uhs s)
      = some (bytes ("location"), pr.2) := by
  unfold copy_response_headers findCI
  unfold findCI at hf
  split
  · rw [List.singleton_append]
    rw [find?_cons_false (fun p => lowerAscii p.1 == lowerAscii (bytes ("location")))
      ((bytes ("tun-status")), natDecStr s) _
      (by exact (by decide :
        (lowerAscii (bytes ("tun-status")) == lowerAscii (bytes ("location"))) = false))]
    exact find?_filterMap_location uhs pr hf hv
  · rw [List.nil_append]
    exact find?_filterMap_location uhs pr hf hv

/-! ## Validity of resolved locations and the claim-side resolution rule -/

theorem hexDigitByte_valid (n : Nat) (h : n < 16) :
    32 ≤ hexDigitByte n ∧ hexDigitByte n ≤ 126 := by
  unfold hexDigitByte
  split <;> omega

theorem encodeByte_valid (b : Nat) (hb : b < 128) :
    ∀ x ∈ encodeByte b, isValidValueByte x = true := by
  intro x hx
  unfold encodeByte at hx
  split at hx
  · rename_i h
    rcases List.mem_singleton.1 hx with rfl
    unfold isUnreservedByte isAlphaByte isDigitByte at h
    simp at h
    unfold isValidValueByte
    simp
    omega
  · rw [show utf8Bytes b = [b] from by unfold utf8Bytes; rw [if_pos hb]] at hx
    rw [List.map_singleton, List.flatten_singleton] at hx
    rcases List.mem_cons.1 hx with rfl | hx'
    · rfl
    · rcases List.mem_cons.1 hx' with rfl | hx''
      · have := hexDigitByte_valid (b / 16) (by omega)
        unfold isValidValueByte
        simp
        omega
      · rcases List.mem_singleton.1 hx'' with rfl
        have := hexDigitByte_valid (b % 16) (by omega)
        unfold isValidValueByte
        simp
        omega

theorem build_proxy_url_valid (s : Str) (hs : s.all isVisibleByte = true) :
    isValidHeaderValue (build_proxy_url s) = true := by
  unfold build_proxy_url isValidHeaderValue
  rw [List.all_append, Bool.and_eq_true]
  refine ⟨by decide, ?_⟩
  rw [List.all_eq_true]
  intro x hx
  unfold urlencode at hx
  rw [List.mem_flatten] at hx
  obtain ⟨l, hl, hxl⟩ := hx
  rw [List.mem_map] at hl
  obtain ⟨y, hy, rfl⟩ := hl
  rw [List.all_eq_true] at hs
  have hyv := hs y hy
  unfold isVisibleByte at hyv
  simp at hyv
  exact encodeByte_valid y (by omega) x hxl

theorem claimResolve_visible (o l : Str)
    (ho : o.all isVisibleByte = true) (hl : l.all isVisibleByte = true) :
    (claimResolve o l).all isVisibleByte = true := by
  rw [List.all_eq_true] at ho hl
  unfold claimResolve
  split
  · rw [List.all_eq_true]
    exact hl
  · split
    · rw [List.all_eq_true]
      intro b hb
      rcases List.mem_append.1 hb with hb' | hb'
      · rcases List.mem_append.1 hb' with hb'' | hb''
        · exact ho b ((List.takeWhile_sublist _).mem hb'')
        · rcases List.mem_singleton.1 hb'' with rfl
          rfl
      · exact hl b hb'
    · split
      · rw [List.all_eq_true]
        intro b hb
        rcases List.mem_append.1 hb with hb' | hb'
        · exact ho b hb'
        · exact hl b hb'
      · rw [List.all_eq_true]
        intro b hb
        rcases List.mem_append.1 hb with hb' | hb'
        · rcases List.mem_append.1 hb' with hb'' | hb''
          · exact ho b hb''
          · rcases List.mem_singleton.1 hb'' with rfl
            rfl
        · exact hl b ((List.dropWhile_sublist _).mem hb')

theorem resolveLocation_eq_claim (o l : Str) (w : UrlModel)
    (hw : parseUrl o = some w) (hsch : w.scheme ≠ [])
    (htw : o.takeWhile (fun b => b != 58) = w.scheme) :
    resolveLocation o l = claimResolve o l := by
  unfold resolveLocation claimResolve
  by_cases hpp : (bytes ("//")).isPrefixOf l = true
  · have hnf : is_full_url l = false := by
      obtain ⟨r, hr⟩ := List.isPrefixOf_iff_prefix.1 hpp
      rw [← hr]
      rfl
    rw [hpp, hnf, hw]
    dsimp only
    rw [if_pos hsch, htw]
    simp
  · have hpp' : (bytes ("//")).isPrefixOf l = false := by
      rw [Bool.not_eq_true] at hpp
      exact hpp
    by_cases hf : is_full_url l = true
    · rw [hpp', hf]
      simp
    · have hf' : is_full_url l = false := by
        rw [Bool.not_eq_true] at hf
        exact hf
      rw [hpp', hf']
      simp

theorem headerToStr_of_visible (v : Str) (h : v.all isVisibleByte = true) :
    headerToStr v = some v := by
  unfold headerToStr
  rw [if_pos h]

theorem modify_location_redirect (T : Headers) (o L pr2 : Str)
    (hfind : findCI (bytes ("location")) T = some (bytes ("location"), pr2))
    (htos : pr2.all isVisibleByte = true)
    (hLdef : trimStr pr2 = L) (hLne : L ≠ [])
    (hvalid : isValidHeaderValue (resolveLocation o L) = true)
    (hvalidp : isValidHeaderValue (build_proxy_url (resolveLocation o L)) = true) :
    modify_location T o =
      insertH (bytes ("tun-Location-Proxy")) (build_proxy_url (resolveLocation o L))
        (insertH (bytes ("tun-Location")) (resolveLocation o L)
          (removeName (bytes ("location")) T)) := by
  unfold modify_location
  rw [hfind]
  rw [show ((some ((bytes ("location")), pr2)).bind (fun p => headerToStr p.2))
    = headerToStr pr2 from rfl]
  rw [headerToStr_of_visible pr2 htos]
  rw [show Option.map trimStr (some pr2) = some (trimStr pr2) from rfl, hLdef]
  dsimp only
  rw [if_neg hLne, if_pos hvalid, if_pos hvalidp]

theorem getAll_modify_location_ne (T : Headers) (o m : Str)
    (h1 : lowerAscii m ≠ bytes ("location"))
    (h2 : lowerAscii m ≠ bytes ("tun-location"))
    (h3 : lowerAscii m ≠ bytes ("tun-location-proxy")) :
    getAll m (modify_location T o) = getAll m T := by
  unfold modify_location
  cases hr : ((findCI (bytes ("location")) T).bind
      (fun p => headerToStr p.2)).map trimStr with
  | none => rfl
  | some loc =>
    dsimp only
    by_cases hl : loc = []
    · rw [if_pos hl]
    · rw [if_neg hl]
      have e1 : ∀ v hs, getAll m (insertH (bytes ("tun-Location-Proxy")) v hs) = getAll m hs := by
        intro v hs
        rw [getAll_insertH]
        rw [if_neg]
        rw [show lowerAscii (bytes ("tun-Location-Proxy")) = bytes ("tun-location-proxy")
          from by decide]
        simp only [beq_iff_eq]
        exact fun hx => h3 (hx.symm)
      have e2 : ∀ v hs, getAll m (insertH (bytes ("tun-Location")) v hs) = getAll m hs := by
        intro v hs
        rw [getAll_insertH]
        rw [if_neg]
        rw [show lowerAscii (bytes ("tun-Location")) = bytes ("tun-location")
          from by decide]
        simp only [beq_iff_eq]
        exact fun hx => h2 (hx.symm)
      have e3 : getAll m (removeName (bytes ("location")) T) = getAll m T := by
        apply getAll_removeName_ne
        rw [show lowerAscii (bytes ("location")) = bytes ("location") from by decide]
        exact fun hx => h1 (hx.symm)
      split
      · split
        · rw [e1, e2, e3]
        · rw [e1, e3]
      · split
        · rw [e2, e3]
        · exact e3

/-! ## Normal form of the CORS and cache-control header stamps -/

theorem headerToStr_some_inv (v w : Str) (h : headerToStr v = some w) :
    w = v ∧ v.all isVisibleByte = true := by
  unfold headerToStr at h
  split at h
  · injection h with h'
    exact ⟨h'.symm, by assumption⟩
  · exact absurd h (by simp)

theorem corsOriginValue_visible (rh : Headers) :
    (corsOriginValue rh).all isVisibleByte = true := by
  unfold corsOriginValue
  cases hfc : findCI (bytes ("origin")) rh with
  | none => decide
  | some p =>
    dsimp only [Option.bind]
    cases hts : headerToStr p.2 with
    | none => decide
    | some v =>
      obtain ⟨rfl, hv⟩ := headerToStr_some_inv p.2 v hts
      simpa using hv

theorem corsAllowHeadersValue_visible (rh : Headers) :
    (corsAllowHeadersValue rh).all isVisibleByte = true := by
  unfold corsAllowHeadersValue
  cases hfc : findCI (bytes ("access-control-request-headers")) rh with
  | none => decide
  | some p =>
    dsimp only [Option.bind]
    cases hts : headerToStr p.2 with
    | none => decide
    | some v =>
      obtain ⟨rfl, hv⟩ := headerToStr_some_inv p.2 v hts
      dsimp only
      split
      · decide
      · simpa using hv

theorem add_cors_eq (rh : Headers) :
    add_cors_headers [] rh =
      [(bytes ("access-control-allow-origin"), corsOriginValue rh),
       (bytes ("access-control-allow-methods"), bytes ("*")),
       (bytes ("access-control-allow-headers"), corsAllowHeadersValue rh),
       (bytes ("access-control-max-age"), bytes ("86400")),
       (bytes ("access-control-allow-credentials"), bytes ("true")),
       (bytes ("access-control-expose-headers"),
        bytes ("tun-Location, tun-Location-Proxy, tun-set-cookie, tun-status"))] := by
  unfold add_cors_headers
  dsimp only
  rw [if_pos (visible_imp_validValue _ (corsOriginValue_visible rh)),
    if_pos (visible_imp_validValue _ (corsAllowHeadersValue_visible rh))]
  rfl

theorem cc_list_eq (rh : Headers) :
    add_cache_control_headers (add_cors_headers [] rh) =
      [(bytes ("access-control-allow-origin"), corsOriginValue rh),
       (bytes ("access-control-allow-methods"), bytes ("*")),
       (bytes ("access-control-allow-headers"), corsAllowHeadersValue rh),
       (bytes ("access-control-max-age"), bytes ("86400")),
       (bytes ("access-control-allow-credentials"), bytes ("true")),
       (bytes ("access-control-expose-headers"),
        bytes ("tun-Location, tun-Location-Proxy, tun-set-cookie, tun-status")),
       (bytes ("cache-control"),
        bytes ("no-store, no-cache, must-revalidate, post-check=0, pre-check=0")),
       (bytes ("pragma"), bytes ("no-cache")),
       (bytes ("expires"), bytes ("0"))] := by
  rw [add_cache_control_headers, add_cors_eq]
  rfl

theorem getAll_cons_ne (m n v : Str) (hs : Headers)
    (h : (lowerAscii n == lowerAscii m) = false) :
    getAll m ((n, v) :: hs) = getAll m hs := by
  rw [getAll_cons]
  rw [show lowerAscii (n, v).1 = lowerAscii n from rfl, h]
  simp

theorem getAll_cons_eq (m n v : Str) (hs : Headers)
    (h : (lowerAscii n == lowerAscii m) = true) :
    getAll m ((n, v) :: hs) = v :: getAll m hs := by
  rw [getAll_cons]
  rw [show lowerAscii (n, v).1 = lowerAscii n from rfl, h]
  simp

/-- The nine (lowercased) header names stamped by the CORS and
cache-control steps. -/
theorem cc_names_eq (rh : Headers) :
    (add_cache_control_headers (add_cors_headers [] rh)).map Prod.fst =
      [bytes ("access-control-allow-origin"), bytes ("access-control-allow-methods"),
       bytes ("access-control-allow-headers"), bytes ("access-control-max-age"),
       bytes ("access-control-allow-credentials"), bytes ("access-control-expose-headers"),
       bytes ("cache-control"), bytes ("pragma"), bytes ("expires")] := by
  rw [cc_list_eq]
  rfl

theorem getAll_merge_cc_ne (rh X : Headers) (m : Str)
    (hm : ∀ n ∈ [bytes ("access-control-allow-origin"), bytes ("access-control-allow-methods"),
       bytes ("access-control-allow-headers"), bytes ("access-control-max-age"),
       bytes ("access-control-allow-credentials"), bytes ("access-control-expose-headers"),
       bytes ("cache-control"), bytes ("pragma"), bytes ("expires")],
       lowerAscii n ≠ lowerAscii m) :
    getAll m (mergeInto (add_cache_control_headers (add_cors_headers [] rh)) X)
      = getAll m X := by
  apply getAll_mergeInto_notmem
  intro q hq
  have hn := List.mem_map_of_mem Prod.fst hq
  rw [cc_names_eq] at hn
  exact hm q.1 hn

/-! ## Per-name access lemmas for the stamped CORS headers (claim C6) -/

theorem getAll_merged_acao (rh X : Headers) :
    getAll (bytes ("Access-Control-Allow-Origin"))
        (mergeInto (add_cache_control_headers (add_cors_headers [] rh)) X)
      = [corsOriginValue rh] := by
  rw [cc_list_eq]
  exact getAll_mergeInto_mem (bytes ("Access-Control-Allow-Origin")) ((bytes ("access-control-allow-origin")), corsOriginValue rh)
    []
    [((bytes ("access-control-allow-methods")), (bytes ("*"))), ((bytes ("access-control-allow-headers")), corsAllowHeadersValue rh), ((bytes ("access-control-max-age")), (bytes ("86400"))), ((bytes ("access-control-allow-credentials")), (bytes ("true"))), ((bytes ("access-control-expose-headers")), (bytes ("tun-Location, tun-Location-Proxy, tun-set-cookie, tun-status"))), ((bytes ("cache-control")), (bytes ("no-store, no-cache, must-revalidate, post-check=0, pre-check=0"))), ((bytes ("pragma")), (bytes ("no-cache"))), ((bytes ("expires")), (bytes ("0")))] X
    (by exact (by decide :
      lowerAscii (bytes ("access-control-allow-origin")) = lowerAscii (bytes ("Access-Control-Allow-Origin"))))
    (by
      intro q hq
      have hn := List.mem_map_of_mem Prod.fst hq
      rw [show ([((bytes ("access-control-allow-methods")), (bytes ("*"))), ((bytes ("access-control-allow-headers")), corsAllowHeadersValue rh), ((bytes ("access-control-max-age")), (bytes ("86400"))), ((bytes ("access-control-allow-credentials")), (bytes ("true"))), ((bytes ("access-control-expose-headers")), (bytes ("tun-Location, tun-Location-Proxy, tun-set-cookie, tun-status"))), ((bytes ("cache-control")), (bytes ("no-store, no-cache, must-revalidate, post-check=0, pre-check=0"))), ((bytes ("pragma")), (bytes ("no-cache"))), ((bytes ("expires")), (bytes ("0")))] : Headers).map Prod.fst
        = [bytes ("access-control-allow-methods"), bytes ("access-control-allow-headers"), bytes ("access-control-max-age"), bytes ("access-control-allow-credentials"), bytes ("access-control-expose-headers"), bytes ("cache-control"), bytes ("pragma"), bytes ("expires")] from rfl] at hn
      exact (by decide : ∀ n ∈ ([bytes ("access-control-allow-methods"), bytes ("access-control-allow-headers"), bytes ("access-control-max-age"), bytes ("access-control-allow-credentials"), bytes ("access-control-expose-headers"), bytes ("cache-control"), bytes ("pragma"), bytes ("expires")] : List Str),
        lowerAscii n ≠ lowerAscii (bytes ("Access-Control-Allow-Origin"))) q.1 hn)

theorem getAll_cors_acao (rh : Headers) :
    getAll (bytes ("Access-Control-Allow-Origin")) (add_cors_headers [] rh) = [corsOriginValue rh] := by
  rw [add_cors_eq]
  rw [getAll_cons_eq (bytes ("Access-Control-Allow-Origin")) (bytes ("access-control-allow-origin")) _ _ (by decide),
    getAll_cons_ne (bytes ("Access-Control-Allow-Origin")) (bytes ("access-control-allow-methods")) _ _ (by decide),
    getAll_cons_ne (bytes ("Access-Control-Allow-Origin")) (bytes ("access-control-allow-headers")) _ _ (by decide),
    getAll_cons_ne (bytes ("Access-Control-Allow-Origin")) (bytes ("access-control-max-age")) _ _ (by decide),
    getAll_cons_ne (bytes ("Access-Control-Allow-Origin")) (bytes ("access-control-allow-credentials")) _ _ (by decide),
    getAll_cons_ne (bytes ("Access-Control-Allow-Origin")) (bytes ("access-control-expose-headers")) _ _ (by decide)]
  rfl

theorem getAll_merged_acam (rh X : Headers) :
    getAll (bytes ("Access-Control-Allow-Methods"))
        (mergeInto (add_cache_control_headers (add_cors_headers [] rh)) X)
      = [bytes ("*")] := by
  rw [cc_list_eq]
  exact getAll_mergeInto_mem (bytes ("Access-Control-Allow-Methods")) ((bytes ("access-control-allow-methods")), (bytes ("*")))
    [((bytes ("access-control-allow-origin")), corsOriginValue rh)]
    [((bytes ("access-control-allow-headers")), corsAllowHeadersValue rh), ((bytes ("access-control-max-age")), (bytes ("86400"))), ((bytes ("access-control-allow-credentials")), (bytes ("true"))), ((bytes ("access-control-expose-headers")), (bytes ("tun-Location, tun-Location-Proxy, tun-set-cookie, tun-status"))), ((bytes ("cache-control")), (bytes ("no-store, no-cache, must-revalidate, post-check=0, pre-check=0"))), ((bytes ("pragma")), (bytes ("no-cache"))), ((bytes ("expires")), (bytes ("0")))] X
    (by exact (by decide :
      lowerAscii (bytes ("access-control-allow-methods")) = lowerAscii (bytes ("Access-Control-Allow-Methods"))))
    (by
      intro q hq
      have hn := List.mem_map_of_mem Prod.fst hq
      rw [show ([((bytes ("access-control-allow-headers")), corsAllowHeadersValue rh), ((bytes ("access-control-max-age")), (bytes ("86400"))), ((bytes ("access-control-allow-credentials")), (bytes ("true"))), ((bytes ("access-control-expose-headers")), (bytes ("tun-Location, tun-Location-Proxy, tun-set-cookie, tun-status"))), ((bytes ("cache-control")), (bytes ("no-store, no-cache, must-revalidate, post-check=0, pre-check=0"))), ((bytes ("pragma")), (bytes ("no-cache"))), ((bytes ("expires")), (bytes ("0")))] : Headers).map Prod.fst
        = [bytes ("access-control-allow-headers"), bytes ("access-control-max-age"), bytes ("access-control-allow-credentials"), bytes ("access-control-expose-headers"), bytes ("cache-control"), bytes ("pragma"), bytes ("expires")] from rfl] at hn
      exact (by decide : ∀ n ∈ ([bytes ("access-control-allow-headers"), bytes ("access-control-max-age"), bytes ("access-control-allow-credentials"), bytes ("access-control-expose-headers"), bytes ("cache-control"), bytes ("pragma"), bytes ("expires")] : List Str),
        lowerAscii n ≠ lowerAscii (bytes ("Access-Control-Allow-Methods"))) q.1 hn)

theorem getAll_cors_acam (rh : Headers) :
    getAll (bytes ("Access-Control-Allow-Methods")) (add_cors_headers [] rh) = [bytes ("*")] := by
  rw [add_cors_eq]
  rw [getAll_cons_ne (bytes ("Access-Control-Allow-Methods")) (bytes ("access-control-allow-origin")) _ _ (by decide),
    getAll_cons_eq (bytes ("Access-Control-Allow-Methods")) (bytes ("access-control-allow-methods")) _ _ (by decide),
    getAll_cons_ne (bytes ("Access-Control-Allow-Methods")) (bytes ("access-control-allow-headers")) _ _ (by decide),
    getAll_cons_ne (bytes ("Access-Control-Allow-Methods")) (bytes ("access-control-max-age")) _ _ (by decide),
    getAll_cons_ne (bytes ("Access-Control-Allow-Methods")) (bytes ("access-control-allow-credentials")) _ _ (by decide),
    getAll_cons_ne (bytes ("Access-Control-Allow-Methods")) (bytes ("access-control-expose-headers")) _ _ (by decide)]
  rfl

theorem getAll_merged_acah (rh X : Headers) :
    getAll (bytes ("Access-Control-Allow-Headers"))
        (mergeInto (add_cache_control_headers (add_cors_headers [] rh)) X)
      = [corsAllowHeadersValue rh] := by
  rw [cc_list_eq]
  exact getAll_mergeInto_mem (bytes ("Access-Control-Allow-Headers")) ((bytes ("access-control-allow-headers")), corsAllowHeadersValue rh)
    [((bytes ("access-control-allow-origin")), corsOriginValue rh), ((bytes ("access-control-allow-methods")), (bytes ("*")))]
    [((bytes ("access-control-max-age")), (bytes ("86400"))), ((bytes ("access-control-allow-credentials")), (bytes ("true"))), ((bytes ("access-control-expose-headers")), (bytes ("tun-Location, tun-Location-Proxy, tun-set-cookie, tun-status"))), ((bytes ("cache-control")), (bytes ("no-store, no-cache, must-revalidate, post-check=0, pre-check=0"))), ((bytes ("pragma")), (bytes ("no-cache"))), ((bytes ("expires")), (bytes ("0")))] X
    (by exact (by decide :
      lowerAscii (bytes ("access-control-allow-headers")) = lowerAscii (bytes ("Access-Control-Allow-Headers"))))
    (by
      intro q hq
      have hn := List.mem_map_of_mem Prod.fst hq
      rw [show ([((bytes ("access-control-max-age")), (bytes ("86400"))), ((bytes ("access-control-allow-credentials")), (bytes ("true"))), ((bytes ("access-control-expose-headers")), (bytes ("tun-Location, tun-Location-Proxy, tun-set-cookie, tun-status"))), ((bytes ("cache-control")), (bytes ("no-store, no-cache, must-revalidate, post-check=0, pre-check=0"))), ((bytes ("pragma")), (bytes ("no-cache"))), ((bytes ("expires")), (bytes ("0")))] : Headers).map Prod.fst
        = [bytes ("access-control-max-age"), bytes ("access-control-allow-credentials"), bytes ("access-control-expose-headers"), bytes ("cache-control"), bytes ("pragma"), bytes ("expires")] from rfl] at hn
      exact (by decide : ∀ n ∈ ([bytes ("access-control-max-age"), bytes ("access-control-allow-credentials"), bytes ("access-control-expose-headers"), bytes ("cache-control"), bytes ("pragma"), bytes ("expires")] : List Str),
        lowerAscii n ≠ lowerAscii (bytes ("Access-Control-Allow-Headers"))) q.1 hn)

theorem getAll_cors_acah (rh : Headers) :
    getAll (bytes ("Access-Control-Allow-Headers")) (add_cors_headers [] rh) = [corsAllowHeadersValue rh] := by
  rw [add_cors_eq]
  rw [getAll_cons_ne (bytes ("Access-Control-Allow-Headers")) (bytes ("access-control-allow-origin")) _ _ (by decide),
    getAll_cons_ne (bytes ("Access-Control-Allow-Headers")) (bytes ("access-control-allow-methods")) _ _ (by decide),
    getAll_cons_eq (bytes ("Access-Control-Allow-Headers")) (bytes ("access-control-allow-headers")) _ _ (by decide),
    getAll_cons_ne (bytes ("Access-Control-Allow-Headers")) (bytes ("access-control-max-age")) _ _ (by decide),
    getAll_cons_ne (bytes ("Access-Control-Allow-Headers")) (bytes ("access-control-allow-credentials")) _ _ (by decide),
    getAll_cons_ne (bytes ("Access-Control-Allow-Headers")) (bytes ("access-control-expose-headers")) _ _ (by decide)]
  rfl

theorem getAll_merged_acma (rh X : Headers) :
    getAll (bytes ("Access-Control-Max-Age"))
        (mergeInto (add_cache_control_headers (add_cors_headers [] rh)) X)
      = [bytes ("86400")] := by
  rw [cc_list_eq]
  exact getAll_mergeInto_mem (bytes ("Access-Control-Max-Age")) ((bytes ("access-control-max-age")), (bytes ("86400")))
    [((bytes ("access-control-allow-origin")), corsOriginValue rh), ((bytes ("access-control-allow-methods")), (bytes ("*"))), ((bytes ("access-control-allow-headers")), corsAllowHeadersValue rh)]
    [((bytes ("access-control-allow-credentials")), (bytes ("true"))), ((bytes ("access-control-expose-headers")), (bytes ("tun-Location, tun-Location-Proxy, tun-set-cookie, tun-status"))), ((bytes ("cache-control")), (bytes ("no-store, no-cache, must-revalidate, post-check=0, pre-check=0"))), ((bytes ("pragma")), (bytes ("no-cache"))), ((bytes ("expires")), (bytes ("0")))] X
    (by exact (by decide :
      lowerAscii (bytes ("access-control-max-age")) = lowerAscii (bytes ("Access-Control-Max-Age"))))
    (by
      intro q hq
      have hn := List.mem_map_of_mem Prod.fst hq
      rw [show ([((bytes ("access-control-allow-credentials")), (bytes ("true"))), ((bytes ("access-control-expose-headers")), (bytes ("tun-Location, tun-Location-Proxy, tun-set-cookie, tun-status"))), ((bytes ("cache-control")), (bytes ("no-store, no-cache, must-revalidate, post-check=0, pre-check=0"))), ((bytes ("pragma")), (bytes ("no-cache"))), ((bytes ("expires")), (bytes ("0")))] : Headers).map Prod.fst
        = [bytes ("access-control-allow-credentials"), bytes ("access-control-expose-headers"), bytes ("cache-control"), bytes ("pragma"), bytes ("expires")] from rfl] at hn
      exact (by decide : ∀ n ∈ ([bytes ("access-control-allow-credentials"), bytes ("access-control-expose-headers"), bytes ("cache-control"), bytes ("pragma"), bytes ("expires")] : List Str),
        lowerAscii n ≠ lowerAscii (bytes ("Access-Control-Max-Age"))) q.1 hn)

theorem getAll_cors_acma (rh : Headers) :
    getAll (bytes ("Access-Control-Max-Age")) (add_cors_headers [] rh) = [bytes ("86400")] := by
  rw [add_cors_eq]
  rw [getAll_cons_ne (bytes ("Access-Control-Max-Age")) (bytes ("access-control-allow-origin")) _ _ (by decide),
    getAll_cons_ne (bytes ("Access-Control-Max-Age")) (bytes ("access-control-allow-methods")) _ _ (by decide),
    getAll_cons_ne (bytes ("Access-Control-Max-Age")) (bytes ("access-control-allow-headers")) _ _ (by decide),
    getAll_cons_eq (bytes ("Access-Control-Max-Age")) (bytes ("access-control-max-age")) _ _ (by decide),
    getAll_cons_ne (bytes ("Access-Control-Max-Age")) (bytes ("access-control-allow-credentials")) _ _ (by decide),
    getAll_cons_ne (bytes ("Access-Control-Max-Age")) (bytes ("access-control-expose-headers")) _ _ (by decide)]
  rfl

theorem getAll_merged_acac (rh X : Headers) :
    getAll (bytes ("Access-Control-Allow-Credentials"))
        (mergeInto (add_cache_control_headers (add_cors_headers [] rh)) X)
      = [bytes ("true")] := by
  rw [cc_list_eq]
  exact getAll_mergeInto_mem (bytes ("Access-Control-Allow-Credentials")) ((bytes ("access-control-allow-credentials")), (bytes ("true")))
    [((bytes ("access-control-allow-origin")), corsOriginValue rh), ((bytes ("access-control-allow-methods")), (bytes ("*"))), ((bytes ("access-control-allow-headers")), corsAllowHeadersValue rh), ((bytes ("access-control-max-age")), (bytes ("86400")))]
    [((bytes ("access-control-expose-headers")), (bytes ("tun-Location, tun-Location-Proxy, tun-set-cookie, tun-status"))), ((bytes ("cache-control")), (bytes ("no-store, no-cache, must-revalidate, post-check=0, pre-check=0"))), ((bytes ("pragma")), (bytes ("no-cache"))), ((bytes ("expires")), (bytes ("0")))] X
    (by exact (by decide :
      lowerAscii (bytes ("access-control-allow-credentials")) = lowerAscii (bytes ("Access-Control-Allow-Credentials"))))
    (by
      intro q hq
      have hn := List.mem_map_of_mem Prod.fst hq
      rw [show ([((bytes ("access-control-expose-headers")), (bytes ("tun-Location, tun-Location-Proxy, tun-set-cookie, tun-status"))), ((bytes ("cache-control")), (bytes ("no-store, no-cache, must-revalidate, post-check=0, pre-check=0"))), ((bytes ("pragma")), (bytes ("no-cache"))), ((bytes ("expires")), (bytes ("0")))] : Headers).map Prod.fst
        = [bytes ("access-control-expose-headers"), bytes ("cache-control"), bytes ("pragma"), bytes ("expires")] from rfl] at hn
      exact (by decide : ∀ n ∈ ([bytes ("access-control-expose-headers"), bytes ("cache-control"), bytes ("pragma"), bytes ("expires")] : List Str),
        lowerAscii n ≠ lowerAscii (bytes ("Access-Control-Allow-Credentials"))) q.1 hn)

theorem getAll_cors_acac (rh : Headers) :
    getAll (bytes ("Access-Control-Allow-Credentials")) (add_cors_headers [] rh) = [bytes ("true")] := by
  rw [add_cors_eq]
  rw [getAll_cons_ne (bytes ("Access-Control-Allow-Credentials")) (bytes ("access-control-allow-origin")) _ _ (by decide),
    getAll_cons_ne (bytes ("Access-Control-Allow-Credentials")) (bytes ("access-control-allow-methods")) _ _ (by decide),
    getAll_cons_ne (bytes ("Access-Control-Allow-Credentials")) (bytes ("access-control-allow-headers")) _ _ (by decide),
    getAll_cons_ne (bytes ("Access-Control-Allow-Credentials")) (bytes ("access-control-max-age")) _ _ (by decide),
    getAll_cons_eq (bytes ("Access-Control-Allow-Credentials")) (bytes ("access-control-allow-credentials")) _ _ (by decide),
    getAll_cons_ne (bytes ("Access-Control-Allow-Credentials")) (bytes ("access-control-expose-headers")) _ _ (by decide)]
  rfl

theorem getAll_merged_acex (rh X : Headers) :
    getAll (bytes ("Access-Control-Expose-Headers"))
        (mergeInto (add_cache_control_headers (add_cors_headers [] rh)) X)
      = [bytes ("tun-Location, tun-Location-Proxy, tun-set-cookie, tun-status")] := by
  rw [cc_list_eq]
  exact getAll_mergeInto_mem (bytes ("Access-Control-Expose-Headers")) ((bytes ("access-control-expose-headers")), (bytes ("tun-Location, tun-Location-Proxy, tun-set-cookie, tun-status")))
    [((bytes ("access-control-allow-origin")), corsOriginValue rh), ((bytes ("access-control-allow-methods")), (bytes ("*"))), ((bytes ("access-control-allow-headers")), corsAllowHeadersValue rh), ((bytes ("access-control-max-age")), (bytes ("86400"))), ((bytes ("access-control-allow-credentials")), (bytes ("true")))]
    [((bytes ("cache-control")), (bytes ("no-store, no-cache, must-revalidate, post-check=0, pre-check=0"))), ((bytes ("pragma")), (bytes ("no-cache"))), ((bytes ("expires")), (bytes ("0")))] X
    (by exact (by decide :
      lowerAscii (bytes ("access-control-expose-headers")) = lowerAscii (bytes ("Access-Control-Expose-Headers"))))
    (by
      intro q hq
      have hn := List.mem_map_of_mem Prod.fst hq
      rw [show ([((bytes ("cache-control")), (bytes ("no-store, no-cache, must-revalidate, post-check=0, pre-check=0"))), ((bytes ("pragma")), (bytes ("no-cache"))), ((bytes ("expires")), (bytes ("0")))] : Headers).map Prod.fst
        = [bytes ("cache-control"), bytes ("pragma"), bytes ("expires")] from rfl] at hn
      exact (by decide : ∀ n ∈ ([bytes ("cache-control"), bytes ("pragma"), bytes ("expires")] : List Str),
        lowerAscii n ≠ lowerAscii (bytes ("Access-Control-Expose-Headers"))) q.1 hn)

theorem getAll_cors_acex (rh : Headers) :
    getAll (bytes ("Access-Control-Expose-Headers")) (add_cors_headers [] rh) = [bytes ("tun-Location, tun-Location-Proxy, tun-set-cookie, tun-status")] := by
  rw [add_cors_eq]
  rw [getAll_cons_ne (bytes ("Access-Control-Expose-Headers")) (bytes ("access-control-allow-origin")) _ _ (by decide),
    getAll_cons_ne (bytes ("Access-Control-Expose-Headers")) (bytes ("access-control-allow-methods")) _ _ (by decide),
    getAll_cons_ne (bytes ("Access-Control-Expose-Headers")) (bytes ("access-control-allow-headers")) _ _ (by decide),
    getAll_cons_ne (bytes ("Access-Control-Expose-Headers")) (bytes ("access-control-max-age")) _ _ (by decide),
    getAll_cons_ne (bytes ("Access-Control-Expose-Headers")) (bytes ("access-control-allow-credentials")) _ _ (by decide),
    getAll_cons_eq (bytes ("Access-Control-Expose-Headers")) (bytes ("access-control-expose-headers")) _ _ (by decide)]
  rfl

/-! ## Unfolding lemmas for the orchestrator -/

theorem proxy_handler_fail (m url : Str) (rh : Headers) (o : Str)
    (ho : parse_origin_url url = some o) :
    proxy_handler m url rh .fail = .error .internal := by
  unfold proxy_handler
  rw [ho]

theorem proxy_handler_ok (m url : Str) (rh uhs : Headers) (s : Nat) (o : Str)
    (ho : parse_origin_url url = some o) :
    proxy_handler m url rh (.ok s uhs) =
      .ok ⟨finalStatus s, modify_location (copy_response_headers uhs s) o⟩ := by
  unfold proxy_handler
  rw [ho]

theorem main_handler_options (rh : Headers) (url tok : Str) (up : Upstream) :
    main_handler (bytes ("OPTIONS")) rh url tok up = ⟨200, add_cors_headers [] rh⟩ := by
  unfold main_handler
  rw [if_pos rfl]

theorem main_handler_401 (method : Str) (rh : Headers) (url tok : Str) (up : Upstream)
    (hm : method ≠ bytes ("OPTIONS"))
    (ha : valid_bearer (authHeaderOf rh) tok = false) :
    main_handler method rh url tok up =
      ⟨401, mergeInto (add_cache_control_headers (add_cors_headers [] rh)) []⟩ := by
  unfold main_handler
  rw [if_neg hm, ha]
  rfl

theorem main_handler_auth_ok (method : Str) (rh : Headers) (url tok : Str) (up : Upstream)
    (hm : method ≠ bytes ("OPTIONS"))
    (ha : valid_bearer (authHeaderOf rh) tok = true) :
    main_handler method rh url tok up =
      (match proxy_handler method url rh up with
       | .ok r => ⟨r.status,
           mergeInto (add_cache_control_headers (add_cors_headers [] rh)) r.headers⟩
       | .error e => ⟨appErrorStatus e,
           mergeInto (add_cache_control_headers (add_cors_headers [] rh)) []⟩) := by
  unfold main_handler
  rw [if_neg hm, ha]
  rfl

/-! ## Claim theorems -/

/-- Claim C10: for every inbound request whose HTTP method is not one of
GET, POST, PUT, DELETE, HEAD, OPTIONS or PATCH, the request forwarded to
the origin uses method GET — the inbound method is not preserved. -/
theorem claim_C10 (m url : Str) (hs : Headers)
    (hm : ¬ m ∈ stdMethods) :
    convertMethod m = bytes ("GET") ∧
    (∀ fr, forwarded_request m url hs = some fr → fr.method = bytes ("GET")) := by
  have hc : convertMethod m = bytes ("GET") := by
    unfold convertMethod
    rw [if_neg (fun hx => hm ((contains_iff_mem _ _).1 hx))]
  refine ⟨hc, ?_⟩
  intro fr hf
  unfold forwarded_request at hf
  cases hp : parse_origin_url url with
  | none => rw [hp] at hf; exact absurd hf (by simp)
  | some o =>
    rw [hp] at hf
    cases hf
    exact hc

/-- Witness for claim C10 at the non-standard method PROPFIND. -/
theorem claim_C10_witness :
    ¬ (bytes ("PROPFIND")) ∈ stdMethods ∧
    (convertMethod (bytes ("PROPFIND")) = bytes ("GET") ∧
     (∀ fr, forwarded_request (bytes ("PROPFIND")) (bytes ("http://example.com/a")) []
        = some fr → fr.method = bytes ("GET"))) :=
  ⟨by decide, claim_C10 (bytes ("PROPFIND")) (bytes ("http://example.com/a")) [] (by decide)⟩

/-- Claim C5: authentication succeeds iff the header case-insensitively
begins with the literal `Bearer ` and the remainder after that 7-byte
prefix, trimmed of surrounding whitespace, is byte-exact equal to the
credential; the empty header fails, and the orchestrator turns a failed
check into a 401 response. -/
theorem claim_C5 (A K method : Str) (rh : Headers) (url tok : Str) (up : Upstream)
    (hm : method ≠ bytes ("OPTIONS"))
    (ha : valid_bearer (authHeaderOf rh) tok = false) :
    (valid_bearer A K = true ↔
      (lowerAscii (A.take 7) = bytes ("bearer ") ∧ trimStr (A.drop 7) = K)) ∧
    valid_bearer [] K = false ∧
    (main_handler method rh url tok up).status = 401 := by
  have hlen : (lowerAscii (bytes ("Bearer "))).length = 7 := by decide
  have hform : ∀ X : Str,
      (lowerAscii (bytes ("Bearer "))).isPrefixOf (lowerAscii X) = true ↔
        lowerAscii (X.take 7) = bytes ("bearer ") := by
    intro X
    rw [List.isPrefixOf_iff_prefix, List.prefix_iff_eq_take, hlen]
    constructor
    · intro h
      rw [show lowerAscii (X.take 7) = (lowerAscii X).take 7 from List.map_take _ _ _]
      rw [← h]
      decide
    · intro h
      rw [show (lowerAscii X).take 7 = lowerAscii (X.take 7) from (List.map_take _ _ _).symm, h]
      decide
  refine ⟨?_, rfl, ?_⟩
  · unfold valid_bearer
    by_cases hpre : (lowerAscii (bytes ("Bearer "))).isPrefixOf (lowerAscii A) = true
    · rw [hpre]
      simp only [Bool.not_true, Bool.false_eq_true, if_false, beq_iff_eq]
      rw [← hform A]
      simp [hpre]
    · have hpre' : (lowerAscii (bytes ("Bearer "))).isPrefixOf (lowerAscii A) = false := by
        rw [Bool.not_eq_true] at hpre
        exact hpre
      rw [hpre']
      simp only [Bool.not_false, if_true]
      constructor
      · intro hx
        exact absurd hx (by simp)
      · intro ⟨h1, _⟩
        rw [← hform A] at h1
        rw [h1] at hpre'
        exact absurd hpre' (by simp)
  · rw [main_handler_401 method rh url tok up hm ha]

/-- Witness for claim C5 at a concrete header/credential pair and a
concrete unauthenticated request. -/
theorem claim_C5_witness :
    (bytes ("GET")) ≠ bytes ("OPTIONS") ∧
    valid_bearer (authHeaderOf []) (bytes ("k")) = false ∧
    ((valid_bearer (bytes ("Bearer abc")) (bytes ("abc")) = true ↔
      (lowerAscii ((bytes ("Bearer abc")).take 7) = bytes ("bearer ") ∧
       trimStr ((bytes ("Bearer abc")).drop 7) = bytes ("abc"))) ∧
     valid_bearer [] (bytes ("abc")) = false ∧
     (main_handler (bytes ("GET")) [] [] (bytes ("k")) .fail).status = 401) :=
  ⟨by decide, by decide,
   claim_C5 (bytes ("Bearer abc")) (bytes ("abc")) (bytes ("GET")) [] [] (bytes ("k")) .fail
     (by decide) (by decide)⟩

/-- Claim C2: for every inbound header multimap, the outbound values under
a (lowercased) name are exactly the values of its `tun-`-escaped variants
(names strictly longer than the case-insensitive prefix `tun-`, values
unchanged, multiplicity preserved) whenever such a variant is present
anywhere inbound; otherwise exactly the values of whitelisted bare headers
of that name; otherwise nothing — and pairs failing header construction
are skipped without failing the translation (the translation is total). -/
theorem claim_C2 (src : Headers) (m : Str) :
    getAll m (copy_request_headers src) =
      if tunPresent (lowerAscii m) src then
        src.filterMap (reqTunContrib (lowerAscii m))
      else if default_forward_headers.contains (lowerAscii m) then
        src.filterMap (reqBareContrib (lowerAscii m))
      else [] :=
  getAll_copy_request src m

/-- Claim C4: response-header translation drops every `access-control-*`
header, renames `set-cookie` to `tun-set-cookie` with the value unchanged,
passes every other header through (name, values, multiplicity preserved,
modulo the `tun-status` record for redirects), skips malformed pairs, and
leaves no `access-control-*` name in its output. -/
theorem claim_C4 (src : Headers) (s : Nat) (m : Str) :
    (getAll m (copy_response_headers src s) =
      (if (300 ≤ s ∧ s < 400) ∧ lowerAscii m = bytes ("tun-status")
       then [natDecStr s] else [])
      ++ src.filterMap (respContrib (lowerAscii m))) ∧
    (is_cors_header m = true → getAll m (copy_response_headers src s) = []) := by
  refine ⟨getAll_copy_response src s m, ?_⟩
  intro hc
  rw [getAll_copy_response src s m]
  have h1 : ¬((300 ≤ s ∧ s < 400) ∧ lowerAscii m = bytes ("tun-status")) := by
    rintro ⟨_, hm⟩
    unfold is_cors_header at hc
    rw [hm] at hc
    exact absurd hc (by decide)
  rw [if_neg h1, List.nil_append, List.filterMap_eq_nil_iff]
  intro p hp
  unfold respContrib
  by_cases hcp : is_cors_header p.1 = true
  · rw [if_pos hcp]
  · rw [if_neg hcp]
    by_cases hsc : eqIgnoreAsciiCase p.1 (bytes ("set-cookie")) = true
    · rw [if_pos hsc, if_neg]
      intro hx
      simp only [Bool.and_eq_true, beq_iff_eq] at hx
      obtain ⟨htc', _⟩ := hx
      unfold is_cors_header at hc
      rw [← htc'] at hc
      exact absurd hc (by decide)
    · rw [if_neg hsc, if_neg]
      intro hx
      simp only [Bool.and_eq_true, beq_iff_eq] at hx
      obtain ⟨⟨hpm', _⟩, _⟩ := hx
      apply hcp
      unfold is_cors_header at hc ⊢
      rw [hpm']
      exact hc

set_option maxHeartbeats 4000000 in
/-- Claim C6: every response produced by the `/proxy` endpoint — OPTIONS
preflight, 401 authentication failure, proxy error, and successful
proxying alike — carries the six CORS headers with exactly the stamped
values: Allow-Origin from the request `origin` (else `*`), Allow-Methods
`*`, Allow-Headers from `access-control-request-headers` when non-empty
(else `*`), Max-Age `86400`, Allow-Credentials `true`, and Expose-Headers
listing the four `tun-` names. -/
theorem claim_C6 (method : Str) (rh : Headers) (url tok : Str) (up : Upstream) :
    getAll (bytes ("Access-Control-Allow-Origin")) (main_handler method rh url tok up).headers
      = [corsOriginValue rh] ∧
    getAll (bytes ("Access-Control-Allow-Methods")) (main_handler method rh url tok up).headers
      = [bytes ("*")] ∧
    getAll (bytes ("Access-Control-Allow-Headers")) (main_handler method rh url tok up).headers
      = [corsAllowHeadersValue rh] ∧
    getAll (bytes ("Access-Control-Max-Age")) (main_handler method rh url tok up).headers
      = [bytes ("86400")] ∧
    getAll (bytes ("Access-Control-Allow-Credentials")) (main_handler method rh url tok up).headers
      = [bytes ("true")] ∧
    getAll (bytes ("Access-Control-Expose-Headers")) (main_handler method rh url tok up).headers
      = [bytes ("tun-Location, tun-Location-Proxy, tun-set-cookie, tun-status")] := by
  by_cases hm : method = bytes ("OPTIONS")
  · rw [hm, main_handler_options rh url tok up]
    exact ⟨getAll_cors_acao rh, getAll_cors_acam rh, getAll_cors_acah rh,
      getAll_cors_acma rh, getAll_cors_acac rh, getAll_cors_acex rh⟩
  · by_cases ha : valid_bearer (authHeaderOf rh) tok = true
    · rw [main_handler_auth_ok method rh url tok up hm ha]
      generalize proxy_handler method url rh up = ph
      cases ph with
      | ok r =>
        exact ⟨getAll_merged_acao rh r.headers, getAll_merged_acam rh r.headers,
          getAll_merged_acah rh r.headers, getAll_merged_acma rh r.headers,
          getAll_merged_acac rh r.headers, getAll_merged_acex rh r.headers⟩
      | error e =>
        exact ⟨getAll_merged_acao rh [], getAll_merged_acam rh [],
          getAll_merged_acah rh [], getAll_merged_acma rh [],
          getAll_merged_acac rh [], getAll_merged_acex rh []⟩
    · have ha' : valid_bearer (authHeaderOf rh) tok = false := by
        rw [Bool.not_eq_true] at ha
        exact ha
      rw [main_handler_401 method rh url tok up hm ha']
      exact ⟨getAll_merged_acao rh [], getAll_merged_acam rh [],
        getAll_merged_acah rh [], getAll_merged_acma rh [],
        getAll_merged_acac rh [], getAll_merged_acex rh []⟩

set_option maxHeartbeats 4000000 in
/-- Claim C1: for an authenticated, successfully proxied request, a 3xx
upstream status makes the client-facing status 200 with the original
status recorded (in decimal) at the front of the `tun-status` values,
while any other upstream status in 100..=999 is passed through unchanged
with no `tun-status` record beyond what the upstream headers contribute. -/
theorem claim_C1 (method : Str) (rh : Headers) (url tok o : Str) (s : Nat) (uhs : Headers)
    (hm : method ≠ bytes ("OPTIONS"))
    (ha : valid_bearer (authHeaderOf rh) tok = true)
    (ho : parse_origin_url url = some o)
    (h100 : 100 ≤ s) (h999 : s ≤ 999) :
    ((300 ≤ s ∧ s < 400) →
      (main_handler method rh url tok (.ok s uhs)).status = 200 ∧
      getAll (bytes ("tun-status")) (main_handler method rh url tok (.ok s uhs)).headers
        = natDecStr s :: uhs.filterMap (respContrib (bytes ("tun-status")))) ∧
    (¬(300 ≤ s ∧ s < 400) →
      (main_handler method rh url tok (.ok s uhs)).status = s ∧
      getAll (bytes ("tun-status")) (main_handler method rh url tok (.ok s uhs)).headers
        = uhs.filterMap (respContrib (bytes ("tun-status")))) := by
  rw [main_handler_auth_ok method rh url tok (.ok s uhs) hm ha,
    proxy_handler_ok method url rh uhs s o ho]
  have hheaders : getAll (bytes ("tun-status"))
      (mergeInto (add_cache_control_headers (add_cors_headers [] rh))
        (modify_location (copy_response_headers uhs s) o))
      = getAll (bytes ("tun-status")) (copy_response_headers uhs s) := by
    rw [getAll_merge_cc_ne rh _ (bytes ("tun-status")) (by decide)]
    exact getAll_modify_location_ne _ o _ (by decide) (by decide) (by decide)
  have hlow : lowerAscii (bytes ("tun-status")) = bytes ("tun-status") := by decide
  constructor
  · intro hred
    refine ⟨?_, ?_⟩
    · show finalStatus s = 200
      unfold finalStatus
      rw [if_pos hred]
    · show getAll (bytes ("tun-status"))
          (mergeInto (add_cache_control_headers (add_cors_headers [] rh))
            (modify_location (copy_response_headers uhs s) o))
        = natDecStr s :: uhs.filterMap (respContrib (bytes ("tun-status")))
      rw [hheaders, getAll_copy_response uhs s (bytes ("tun-status")), hlow,
        if_pos ⟨hred, rfl⟩]
      rfl
  · intro hred
    refine ⟨?_, ?_⟩
    · show finalStatus s = s
      unfold finalStatus
      rw [if_neg hred, if_pos ⟨h100, h999⟩]
    · show getAll (bytes ("tun-status"))
          (mergeInto (add_cache_control_headers (add_cors_headers [] rh))
            (modify_location (copy_response_headers uhs s) o))
        = uhs.filterMap (respContrib (bytes ("tun-status")))
      rw [hheaders, getAll_copy_response uhs s (bytes ("tun-status")), hlow,
        if_neg (fun hx => hred hx.1), List.nil_append]

/-- Witness for claim C1 at a 302 upstream response. -/
theorem claim_C1_witness :
    (bytes ("GET")) ≠ bytes ("OPTIONS") ∧
    valid_bearer (authHeaderOf [((bytes ("authorization")), (bytes ("Bearer k")))])
      (bytes ("k")) = true ∧
    parse_origin_url (bytes ("http://example.com/a")) = some (bytes ("http://example.com")) ∧
    100 ≤ 302 ∧ 302 ≤ 999 ∧
    (((300 ≤ 302 ∧ 302 < 400) →
      (main_handler (bytes ("GET")) [((bytes ("authorization")), (bytes ("Bearer k")))]
        (bytes ("http://example.com/a")) (bytes ("k")) (.ok 302 [])).status = 200 ∧
      getAll (bytes ("tun-status"))
        (main_handler (bytes ("GET")) [((bytes ("authorization")), (bytes ("Bearer k")))]
          (bytes ("http://example.com/a")) (bytes ("k")) (.ok 302 [])).headers
        = natDecStr 302 :: List.filterMap (respContrib (bytes ("tun-status"))) []) ∧
    (¬(300 ≤ 302 ∧ 302 < 400) →
      (main_handler (bytes ("GET")) [((bytes ("authorization")), (bytes ("Bearer k")))]
        (bytes ("http://example.com/a")) (bytes ("k")) (.ok 302 [])).status = 302 ∧
      getAll (bytes ("tun-status"))
        (main_handler (bytes ("GET")) [((bytes ("authorization")), (bytes ("Bearer k")))]
          (bytes ("http://example.com/a")) (bytes ("k")) (.ok 302 [])).headers
        = List.filterMap (respContrib (bytes ("tun-status"))) [])) :=
  ⟨by decide, by decide, by decide, by decide, by decide,
   claim_C1 (bytes ("GET")) [((bytes ("authorization")), (bytes ("Bearer k")))]
     (bytes ("http://example.com/a")) (bytes ("k")) (bytes ("http://example.com")) 302 []
     (by decide) (by decide) (by decide) (by decide) (by decide)⟩

/-- Claim C8 counterexample: the target `ftp://example.com/a` yields the
origin `ftp://example.com`, and resolving the non-empty location `/c`
against it is not idempotent — `is_full_url` recognizes only `http://`
and `https://` prefixes, so the resolved `ftp://example.com/c` is treated
as a relative path on the second pass and the origin is prepended again. -/
theorem claim_C8_counterexample :
    parse_origin_url (bytes ("ftp://example.com/a")) = some (bytes ("ftp://example.com")) ∧
    (bytes ("/c")) ≠ [] ∧
    resolveLocation (bytes ("ftp://example.com"))
        (resolveLocation (bytes ("ftp://example.com")) (bytes ("/c")))
      ≠ resolveLocation (bytes ("ftp://example.com")) (bytes ("/c")) := by
  exact ⟨by decide, by decide, by decide⟩

/-- Claim C8 (amended): when the target's parsed scheme is `http` or
`https`, the computed origin starts with `http://` or `https://`, so
location resolution against it is idempotent: resolving an
already-resolved location changes nothing. -/
theorem claim_C8_amended (t : Str) (u : UrlModel) (o l : Str)
    (hu : parseUrl t = some u)
    (hsch : u.scheme = bytes ("http") ∨ u.scheme = bytes ("https"))
    (ho : parse_origin_url t = some o) :
    resolveLocation o (resolveLocation o l) = resolveLocation o l := by
  obtain ⟨_, _, _, hfull⟩ := origin_derived_facts t u o hu ho
  exact resolveLocation_idem_of_full o l (hfull hsch)

/-- Witness for the amended claim C8 at an `http` target and an
absolute-path location. -/
theorem claim_C8_amended_witness :
    parseUrl (bytes ("http://example.com/a"))
      = some ⟨bytes ("http"), bytes ("example.com"), none,
          bytes ("/a"), none, none⟩ ∧
    ((⟨bytes ("http"), bytes ("example.com"), none,
        bytes ("/a"), none, none⟩ : UrlModel).scheme = bytes ("http") ∨
     (⟨bytes ("http"), bytes ("example.com"), none,
        bytes ("/a"), none, none⟩ : UrlModel).scheme = bytes ("https")) ∧
    parse_origin_url (bytes ("http://example.com/a")) = some (bytes ("http://example.com")) ∧
    resolveLocation (bytes ("http://example.com"))
        (resolveLocation (bytes ("http://example.com")) (bytes ("/c")))
      = resolveLocation (bytes ("http://example.com")) (bytes ("/c")) :=
  ⟨by decide, Or.inl rfl, by decide,
   claim_C8_amended (bytes ("http://example.com/a"))
     ⟨bytes ("http"), bytes ("example.com"), none, bytes ("/a"), none, none⟩
     (bytes ("http://example.com")) (bytes ("/c"))
     (by decide) (Or.inl rfl) (by decide)⟩

set_option maxHeartbeats 4000000 in
/-- Claim C3: for an authenticated, successfully proxied request whose
upstream response is a 3xx carrying a Location whose trimmed value `L` is
non-empty, the client-facing response has no `location` header; it has
exactly one `tun-Location`, holding `L` resolved against the computed
origin (full URL kept; `//...` given the origin's scheme; absolute path
appended to the origin; otherwise origin, `/`, and `L` without leading
slashes); and exactly one `tun-Location-Proxy`, holding `/proxy?url=`
followed by the percent-encoding of that resolved value. -/
theorem claim_C3 (t o method tok : Str) (rh : Headers) (s : Nat) (uhs : Headers)
    (pr : Str × Str) (L : Str)
    (hm : method ≠ bytes ("OPTIONS"))
    (ha : valid_bearer (authHeaderOf rh) tok = true)
    (ho : parse_origin_url t = some o)
    (hs3 : 300 ≤ s) (hs4 : s < 400)
    (hloc : findCI (bytes ("location")) uhs = some pr)
    (hvis : pr.2.all isVisibleByte = true)
    (hL : trimStr pr.2 = L) (hLne : L ≠ []) :
    getAll (bytes ("location"))
      (main_handler method rh t tok (.ok s uhs)).headers = [] ∧
    getAll (bytes ("tun-Location"))
      (main_handler method rh t tok (.ok s uhs)).headers = [claimResolve o L] ∧
    getAll (bytes ("tun-Location-Proxy"))
      (main_handler method rh t tok (.ok s uhs)).headers
      = [bytes ("/proxy?url=") ++ urlencode (claimResolve o L)] := by
  have hu' : ∃ u, parseUrl t = some u := by
    unfold parse_origin_url at ho
    cases hx : parseUrl t with
    | none => rw [hx] at ho; exact absurd ho (by simp)
    | some u => exact ⟨u, rfl⟩
  obtain ⟨u, hu⟩ := hu'
  obtain ⟨⟨w, hw, hws⟩, htw, hovis, _⟩ := origin_derived_facts t u o hu ho
  obtain ⟨⟨c, cs, hcc, _⟩, _⟩ := parseUrl_wf t u hu
  have hwne : w.scheme ≠ [] := by
    rw [hws, hcc]
    exact List.cons_ne_nil c cs
  have hres : resolveLocation o L = claimResolve o L :=
    resolveLocation_eq_claim o L w hw hwne (by rw [hws]; exact htw)
  have hLvis : L.all isVisibleByte = true := by
    rw [List.all_eq_true] at hvis ⊢
    intro b hb
    rw [← hL] at hb
    exact hvis b (mem_trimStr pr.2 b hb)
  have hrvis : (claimResolve o L).all isVisibleByte = true :=
    claimResolve_visible o L hovis hLvis
  have hvalid : isValidHeaderValue (resolveLocation o L) = true := by
    rw [hres]
    exact visible_imp_validValue _ hrvis
  have hvalidp : isValidHeaderValue (build_proxy_url (resolveLocation o L)) = true := by
    rw [hres]
    exact build_proxy_url_valid _ hrvis
  have hfind := findCI_location_copy_response uhs s pr hloc (visible_imp_validValue _ hvis)
  have hml := modify_location_redirect (copy_response_headers uhs s) o L pr.2
    hfind hvis hL hLne hvalid hvalidp
  rw [main_handler_auth_ok method rh t tok (.ok s uhs) hm ha,
    proxy_handler_ok method t rh uhs s o ho]
  refine ⟨?_, ?_, ?_⟩
  · show getAll (bytes ("location"))
        (mergeInto (add_cache_control_headers (add_cors_headers [] rh))
          (modify_location (copy_response_headers uhs s) o)) = []
    rw [getAll_merge_cc_ne rh _ (bytes ("location")) (by decide), hml,
      getAll_insertH (bytes ("location")) (bytes ("tun-Location-Proxy")) _ _,
      if_neg (by decide),
      getAll_insertH (bytes ("location")) (bytes ("tun-Location")) _ _,
      if_neg (by decide)]
    exact getAll_removeName_eq (bytes ("location")) (bytes ("location")) _ (by decide)
  · show getAll (bytes ("tun-Location"))
        (mergeInto (add_cache_control_headers (add_cors_headers [] rh))
          (modify_location (copy_response_headers uhs s) o)) = [claimResolve o L]
    rw [getAll_merge_cc_ne rh _ (bytes ("tun-Location")) (by decide), hml,
      getAll_insertH (bytes ("tun-Location")) (bytes ("tun-Location-Proxy")) _ _,
      if_neg (by decide),
      getAll_insertH (bytes ("tun-Location")) (bytes ("tun-Location")) _ _,
      if_pos (by decide), hres]
  · show getAll (bytes ("tun-Location-Proxy"))
        (mergeInto (add_cache_control_headers (add_cors_headers [] rh))
          (modify_location (copy_response_headers uhs s) o))
      = [bytes ("/proxy?url=") ++ urlencode (claimResolve o L)]
    rw [getAll_merge_cc_ne rh _ (bytes ("tun-Location-Proxy")) (by decide), hml,
      getAll_insertH (bytes ("tun-Location-Proxy")) (bytes ("tun-Location-Proxy")) _ _,
      if_pos (by decide), hres]
    rfl

/-- Witness for claim C3 at the 302 redirect of the worked example: object
`http://example.com/a`, upstream Location `/c`. -/
theorem claim_C3_witness :
    (bytes ("GET")) ≠ bytes ("OPTIONS") ∧
    valid_bearer (authHeaderOf [((bytes ("authorization")), (bytes ("Bearer k")))])
      (bytes ("k")) = true ∧
    parse_origin_url (bytes ("http://example.com/a")) = some (bytes ("http://example.com")) ∧
    300 ≤ 302 ∧ 302 < 400 ∧
    findCI (bytes ("location")) [((bytes ("Location")), (bytes ("/c")))]
      = some ((bytes ("Location")), (bytes ("/c"))) ∧
    ((bytes ("Location")), (bytes ("/c"))).2.all isVisibleByte = true ∧
    trimStr ((bytes ("Location")), (bytes ("/c"))).2 = bytes ("/c") ∧
    (bytes ("/c")) ≠ [] ∧
    (getAll (bytes ("location"))
      (main_handler (bytes ("GET")) [((bytes ("authorization")), (bytes ("Bearer k")))]
        (bytes ("http://example.com/a")) (bytes ("k"))
        (.ok 302 [((bytes ("Location")), (bytes ("/c")))])).headers = [] ∧
     getAll (bytes ("tun-Location"))
      (main_handler (bytes ("GET")) [((bytes ("authorization")), (bytes ("Bearer k")))]
        (bytes ("http://example.com/a")) (bytes ("k"))
        (.ok 302 [((bytes ("Location")), (bytes ("/c")))])).headers
      = [claimResolve (bytes ("http://example.com")) (bytes ("/c"))] ∧
     getAll (bytes ("tun-Location-Proxy"))
      (main_handler (bytes ("GET")) [((bytes ("authorization")), (bytes ("Bearer k")))]
        (bytes ("http://example.com/a")) (bytes ("k"))
        (.ok 302 [((bytes ("Location")), (bytes ("/c")))])).headers
      = [bytes ("/proxy?url=")
          ++ urlencode (claimResolve (bytes ("http://example.com")) (bytes ("/c")))]) :=
  ⟨by decide, by decide, by decide, by decide, by decide, by decide, by decide, by decide,
   by decide,
   claim_C3 (bytes ("http://example.com/a")) (bytes ("http://example.com"))
     (bytes ("GET")) (bytes ("k")) [((bytes ("authorization")), (bytes ("Bearer k")))]
     302 [((bytes ("Location")), (bytes ("/c")))]
     ((bytes ("Location")), (bytes ("/c"))) (bytes ("/c"))
     (by decide) (by decide) (by decide) (by decide) (by decide) (by decide) (by decide)
     (by decide) (by decide)⟩
